import Mathlib

/-!
# WonderLust listing controllers

A shallow embedding of `controllers/listings.js`: the request handlers
`showListing`, `createListing`, `renderEditForm`, `updateListing`, `filter`,
`search` and `destroyListing`, over an explicit model of the document store.

* JavaScript strings are sequences of UTF-16 code units (`Str`).
* The parts of the platform the handlers call but do not define (case
  mapping of strings, the store's regular-expression engine, the geocoding
  provider, schema validation on `save`) are the fields of `Platform`; the
  theorems hold for every platform, and `sample` and `dotSample` are
  concrete ones on which the definitions are evaluated.
* A handler run ends in `Except.error` (an exception leaves the handler) or
  in `Except.ok` with the new store, the flash messages and the reply.
-/

namespace WonderLust

/-! ## Strings -/

/-- A JavaScript string: its UTF-16 code units. -/
abbrev Str := List Nat

/-- The code units of a literal (all literals below are in the Basic
Multilingual Plane, where code units and code points coincide). -/
def js (s : String) : Str := s.toList.map Char.toNat

/-- ECMAScript `WhiteSpace` and `LineTerminator` code points: the set removed
by `String.prototype.trim` and matched by the regular expression `\s`. -/
def isWhiteSpace (c : Nat) : Bool :=
  c == 0x09 || c == 0x0A || c == 0x0B || c == 0x0C || c == 0x0D || c == 0x20 ||
  c == 0xA0 || c == 0x1680 || (0x2000 ≤ c && c ≤ 0x200A) || c == 0x2028 ||
  c == 0x2029 || c == 0x202F || c == 0x205F || c == 0x3000 || c == 0xFEFF

/-- Method `trim` of a string. -/
def trim (s : Str) : Str :=
  ((s.dropWhile isWhiteSpace).reverse.dropWhile isWhiteSpace).reverse

/-- Scan for `replace(/\s+/g, " ")`; `inRun` tells that the previous code unit
was white space, whose run has already been replaced. -/
def collapseFrom (inRun : Bool) : Str → Str
  | [] => []
  | c :: cs =>
    if isWhiteSpace c then
      if inRun then collapseFrom true cs else 0x20 :: collapseFrom true cs
    else c :: collapseFrom false cs

/-- The call `replace(/\s+/g, " ")`: every maximal run of white space becomes
one space. -/
def collapseSpaces (s : Str) : Str := collapseFrom false s

/-- The call `split(" ")`: the pieces between the spaces (a string without
space gives itself, the empty string gives one empty piece). -/
def splitSpace : Str → List Str
  | [] => [[]]
  | c :: cs =>
    if c = 0x20 then [] :: splitSpace cs
    else
      match splitSpace cs with
      | [] => [[c]]
      | w :: ws => (c :: w) :: ws

/-- The call `join(" ")`. -/
def joinSpace (ws : List Str) : Str := List.intercalate [0x20] ws

/-- Whether `p` occurs in `s` as a run of consecutive code units. -/
def occursIn (p s : Str) : Bool := s.tails.any (fun t => p.isPrefixOf t)

/-- Method `replace` with a string pattern: the first occurrence of `pat` is
replaced by `rep`. -/
def replaceFirst (pat rep : Str) : Str → Str
  | [] => if pat = [] then rep else []
  | c :: cs =>
    if pat.isPrefixOf (c :: cs) then rep ++ (c :: cs).drop pat.length
    else c :: replaceFirst pat rep cs

/-! ## Numbers -/

/-- The values `parseInt` can return: `NaN`, an integral double, or an
infinity. -/
inductive JSNumber where
  | nan
  | finite (v : Int)
  | posInf
  | negInf
  deriving DecidableEq, Repr

/-- Bit length by halving; `fuel` bounds the number of halvings. -/
def bitLengthFuel : Nat → Nat → Nat
  | 0, _ => 0
  | fuel + 1, m => if m = 0 then 0 else bitLengthFuel fuel (m / 2) + 1

/-- The number of binary digits of `m`. -/
def bitLength (m : Nat) : Nat := bitLengthFuel m m

/-- The double nearest to the natural number `m` (ties to even), as a natural
number; `none` when it is `Infinity`. Below `2 ^ 53` every natural number is a
double; above, a double keeps the 53 leading binary digits. -/
def roundToDouble (m : Nat) : Option Nat :=
  if m < 2 ^ 53 then some m
  else
    let e := bitLength m - 53
    let q := m / 2 ^ e
    let r := m % 2 ^ e
    let half := 2 ^ (e - 1)
    let q1 := if half < r ∨ (r = half ∧ q % 2 = 1) then q + 1 else q
    if bitLength (q1 * 2 ^ e) ≤ 1024 then some (q1 * 2 ^ e) else none

/-- Whether a code unit is a decimal digit. -/
def isDigit (c : Nat) : Bool := 0x30 ≤ c && c ≤ 0x39

/-- The integer written by a sequence of decimal digits. -/
def digitsValue (ds : Str) : Nat := ds.foldl (fun acc d => 10 * acc + (d - 0x30)) 0

/-- The call `parseInt(s, 10)`: leading white space is skipped, a sign is
read, then the longest run of decimal digits; no digit gives `NaN`, what
follows the digits is ignored, and the integer read is rounded to a double.
(For more than 20 significant digits an engine may round the digits after
the 20th to zero first; that freedom is not used here.) -/
def parseInt (s : Str) : JSNumber :=
  let t := s.dropWhile isWhiteSpace
  let neg := t.head? = some 0x2D
  let u := if t.head? = some 0x2D ∨ t.head? = some 0x2B then t.drop 1 else t
  let z := u.takeWhile isDigit
  if z = [] then JSNumber.nan
  else
    match roundToDouble (digitsValue z) with
    | some v => JSNumber.finite (if neg then -(v : Int) else v)
    | none => if neg then JSNumber.negInf else JSNumber.posInf

/-- Decimal digits of `n`, most significant first, put before `acc`; `fuel`
bounds the number of digits. -/
def numeralFuel : Nat → Nat → Str → Str
  | 0, _, acc => acc
  | fuel + 1, n, acc =>
    if n < 10 then (n + 0x30) :: acc
    else numeralFuel fuel (n / 10) ((n % 10 + 0x30) :: acc)

/-- The decimal numeral of a natural number. -/
def natNumeral (n : Nat) : Str := numeralFuel (n + 1) n []

/-- The decimal numeral of an integer: a minus sign before the numeral of the
absolute value when negative. -/
def numeral (n : Int) : Str :=
  if n < 0 then 0x2D :: natNumeral n.natAbs else natNumeral n.natAbs

/-! ## Data model -/

/-- A well-formed document identifier, ordered as the store orders them. -/
abbrev ObjectId := Nat

/-- The image sub-document of a listing. -/
structure Image where
  filename : Str
  url : Str
  deriving DecidableEq, Repr

/-- A GeoJSON geometry. -/
structure Geometry where
  type : Str
  coordinates : List ℚ
  deriving DecidableEq, Repr

/-- A stored listing document. A path the document does not have is `none`;
the array paths are empty when absent. -/
structure Listing where
  _id : ObjectId
  title : Option Str
  description : Option Str
  image : Option Image
  price : Option ℚ
  location : Option Str
  country : Option Str
  category : List Str
  geometry : Option Geometry
  owner : Option ObjectId
  reviews : List ObjectId
  deriving DecidableEq, Repr

/-- The collection of listings, in the store's natural order. -/
abbrev Store := List Listing

/-- The object `req.body.listing`: the submitted fields, cast to the types of
the schema; a field that was not submitted is `none`. -/
structure ListingBody where
  title : Option Str
  description : Option Str
  image : Option Image
  price : Option ℚ
  location : Option Str
  country : Option Str
  category : Option (List Str)
  geometry : Option Geometry
  owner : Option ObjectId
  reviews : Option (List ObjectId)
  deriving DecidableEq, Repr

/-- The object `req.file` left by the upload middleware. -/
structure UploadedFile where
  filename : Str
  path : Str
  deriving DecidableEq, Repr

/-- What the try block around the geocoding call observes: an exception
(the request is rejected, or the response has no feature list), or the
geometries of the features returned. -/
inductive GeoResponse where
  | failure
  | features (fs : List Geometry)
  deriving DecidableEq, Repr

/-- What the handlers use without defining it. -/
structure Platform where
  /-- Method `toUpperCase` of a string. -/
  toUpperCase : Str → Str
  /-- Method `toLowerCase` of a string. -/
  toLowerCase : Str → Str
  /-- The store's engine for the operator `$regex` with option `i`: `none`
  when the pattern is rejected, else the test whether a string has a match. -/
  regex : Str → Option (Str → Bool)
  /-- The geocoding request for a query (`none`: the query is `undefined`). -/
  forwardGeocode : Option Str → GeoResponse
  /-- The validators of the listing schema, run by `save`. -/
  validate : Listing → Bool

/-! ## Requests and replies -/

/-- The two flash channels the handlers write to. -/
inductive FlashKind where
  | error
  | success
  deriving DecidableEq, Repr

/-- One call `req.flash(kind, message)`. -/
structure Flash where
  kind : FlashKind
  message : Str
  deriving DecidableEq, Repr

/-- The targets of `res.redirect`. -/
inductive Path where
  /-- The path `/listings`. -/
  | listings
  /-- The path `/listings/${id}`. -/
  | listing (id : ObjectId)
  deriving DecidableEq, Repr

/-- The data passed to a view. -/
inductive Payload where
  | allListings (ls : List Listing)
  | listing (l : Listing)
  | edit (l : Listing) (imageUrl : Str)
  deriving DecidableEq, Repr

/-- The reply sent: a rendered view, with `res.locals.success` when it was
set, or a redirect. -/
inductive Reply where
  | render (view : Str) (success : Option Str) (payload : Payload)
  | redirect (target : Path)
  deriving DecidableEq, Repr

/-- The exceptions that leave a handler. -/
inductive Raised where
  /-- A property is read from, or set on, `undefined` or `null`. -/
  | typeError
  /-- Method `save` rejects the document. -/
  | validationError
  /-- The store rejects the regular expression of a query. -/
  | queryError
  deriving DecidableEq, Repr

/-- How a handler run ends. -/
inductive Ending where
  | replied (r : Reply)
  | raised (e : Raised)
  deriving DecidableEq, Repr

/-- A handler run: the store it leaves, the messages flashed, and its end. -/
structure Outcome where
  store : Store
  flash : List Flash
  ending : Ending
  deriving DecidableEq, Repr

/-- The request of `createListing`: `req.body.listing`, `req.user._id` and
`req.file`, the last two `none` when `req.user` or `req.file` is
`undefined`. -/
structure CreateRequest where
  body : ListingBody
  user : Option ObjectId
  file : Option UploadedFile
  deriving DecidableEq, Repr

/-- The request of `updateListing`: `req.params.id`, `req.body.listing` and
`req.file`. -/
structure UpdateRequest where
  id : ObjectId
  body : ListingBody
  file : Option UploadedFile
  deriving DecidableEq, Repr

/-! ## Store operations -/

/-- The query `Listing.findById(id)`. -/
def findById (store : Store) (id : ObjectId) : Option Listing :=
  store.find? (fun l => l._id = id)

/-- The update document `{ ...body }` applied to a listing: every submitted
field replaces the stored one. -/
def applyUpdate (l : Listing) (b : ListingBody) : Listing :=
  { _id := l._id
    title := b.title.orElse (fun _ => l.title)
    description := b.description.orElse (fun _ => l.description)
    image := b.image.orElse (fun _ => l.image)
    price := b.price.orElse (fun _ => l.price)
    location := b.location.orElse (fun _ => l.location)
    country := b.country.orElse (fun _ => l.country)
    category := b.category.getD l.category
    geometry := b.geometry.orElse (fun _ => l.geometry)
    owner := b.owner.orElse (fun _ => l.owner)
    reviews := b.reviews.getD l.reviews }

/-- The store after `Listing.findByIdAndUpdate(id, { ...body })`. -/
def updateById (store : Store) (id : ObjectId) (b : ListingBody) : Store :=
  store.map (fun l => if l._id = id then applyUpdate l b else l)

/-- The store after `save` of a found document whose only modified path is
`image`. -/
def saveImage (store : Store) (id : ObjectId) (img : Image) : Store :=
  store.map (fun l => if l._id = id then { l with image := some img } else l)

/-- The store after `Listing.findByIdAndDelete(id)`. -/
def deleteById (store : Store) (id : ObjectId) : Store :=
  store.eraseP (fun l => l._id = id)

/-- The document `new Listing(body)` with the identifier it is given. -/
def newListing (id : ObjectId) (b : ListingBody) : Listing :=
  { _id := id
    title := b.title
    description := b.description
    image := b.image
    price := b.price
    location := b.location
    country := b.country
    category := b.category.getD []
    geometry := b.geometry
    owner := b.owner
    reviews := b.reviews.getD [] }

/-- The order of `sort({ _id: -1 })`. -/
def idDesc (a b : Listing) : Prop := b._id ≤ a._id

instance : DecidableRel idDesc := fun a b => inferInstanceAs (Decidable (b._id ≤ a._id))

/-- The order of `sort({ price: 1 })`: a missing price sorts first. -/
def priceAsc (a b : Listing) : Prop :=
  match a.price, b.price with
  | none, _ => True
  | some _, none => False
  | some x, some y => x ≤ y

instance : DecidableRel priceAsc := fun a b => by
  unfold priceAsc
  cases a.price <;> cases b.price <;> infer_instance

/-- The comparison `price <= v` of the operator `$lte`: a missing price
matches nothing. -/
def priceLte (p : Option ℚ) (v : JSNumber) : Bool :=
  match p, v with
  | some x, JSNumber.finite n => decide (x ≤ (n : ℚ))
  | some _, JSNumber.posInf => true
  | _, _ => false

/-! ## Handlers -/

/-- The default geometry of `createListing` and `updateListing`:
`{ type: "Point", coordinates: [77.2090, 28.6139] }`. -/
def defaultGeometry : Geometry :=
  { type := js "Point", coordinates := [77.2090, 28.6139] }

/-- The try block of `createListing` and `updateListing`: the geometry of the
first feature, the default when there is no feature or when an exception is
caught. -/
def geocode (E : Platform) (query : Option Str) : Geometry :=
  match E.forwardGeocode query with
  | GeoResponse.features (g :: _) => g
  | GeoResponse.features [] => defaultGeometry
  | GeoResponse.failure => defaultGeometry

/-- A run that flashes one message and redirects. -/
def flashRedirect (store : Store) (kind : FlashKind) (message : Str) (target : Path) :
    Outcome :=
  { store := store, flash := [⟨kind, message⟩], ending := Ending.replied (Reply.redirect target) }

/-- A run that renders the list view `listings/index.ejs` with
`res.locals.success` set. -/
def renderIndex (store : Store) (success : Str) (allListings : List Listing) : Outcome :=
  { store := store, flash := [],
    ending := Ending.replied
      (Reply.render (js "listings/index.ejs") (some success) (Payload.allListings allListings)) }

/-- A run that ends in an exception. -/
def raise (store : Store) (e : Raised) : Outcome :=
  { store := store, flash := [], ending := Ending.raised e }

/-- Handler `showListing`. -/
def showListing (store : Store) (id : ObjectId) : Outcome :=
  match findById store id with
  | none =>
    flashRedirect store FlashKind.error (js "Listing you requested for does not exist!")
      Path.listings
  | some listing =>
    { store := store, flash := [],
      ending := Ending.replied
        (Reply.render (js "listings/show.ejs") none (Payload.listing listing)) }

/-- Handler `createListing`; `newId` is the identifier the new document is
given. -/
def createListing (E : Platform) (store : Store) (newId : ObjectId) (req : CreateRequest) :
    Outcome :=
  let geometry := geocode E req.body.location
  let doc := newListing newId req.body
  match req.user with
  | none => raise store Raised.typeError
  | some user =>
    match req.file with
    | none => raise store Raised.typeError
    | some file =>
      let doc := { doc with
        owner := some user
        image := some { filename := file.filename, url := file.path }
        geometry := some geometry }
      if E.validate doc then
        flashRedirect (store ++ [doc]) FlashKind.success (js "New listing created!")
          Path.listings
      else raise store Raised.validationError

/-- Handler `renderEditForm`. -/
def renderEditForm (store : Store) (id : ObjectId) : Outcome :=
  match findById store id with
  | none =>
    flashRedirect store FlashKind.error
      (js "Listing you are trying to edit does not exist!") Path.listings
  | some listing =>
    match listing.image with
    | none => raise store Raised.typeError
    | some image =>
      let imageUrl := replaceFirst (js "/upload") (js "/upload/w_250,h_160") image.url
      { store := store, flash := [],
        ending := Ending.replied
          (Reply.render (js "listings/edit.ejs") none (Payload.edit listing imageUrl)) }

/-- A field interpolated in a template literal. -/
def interpolate (field : Option Str) : Str := field.getD (js "undefined")

/-- Handler `updateListing`. The document returned by `findByIdAndUpdate` is
the one found before the update, `null` when none is found. -/
def updateListing (E : Platform) (store : Store) (req : UpdateRequest) : Outcome :=
  let geometry := geocode E
    (some (interpolate req.body.location ++ js "," ++ interpolate req.body.country))
  let body := { req.body with geometry := some geometry }
  let updatedListing := findById store req.id
  let store1 := updateById store req.id body
  match req.file with
  | some file =>
    match updatedListing with
    | none => raise store1 Raised.typeError
    | some doc =>
      let image : Image := { url := file.path, filename := file.filename }
      if E.validate { doc with image := some image } then
        flashRedirect (saveImage store1 req.id image) FlashKind.success
          (js "Listing updated!") (Path.listing req.id)
      else raise store1 Raised.validationError
  | none =>
    flashRedirect store1 FlashKind.success (js "Listing updated!") (Path.listing req.id)

/-- Handler `filter`; `tag` is `req.params.id`. -/
def filter (store : Store) (tag : Str) : Outcome :=
  let allListings := store.filter (fun l => decide (tag ∈ l.category))
  if allListings.length ≠ 0 then
    renderIndex store (js "Listings filtered by " ++ tag ++ js "!") allListings
  else
    flashRedirect store FlashKind.error (js "There are no listings for " ++ tag ++ js "!")
      Path.listings

/-- The variable `input` of `search`. -/
def searchInput (q : Str) : Str := collapseSpaces (trim q)

/-- The function mapped over the words in `search`. -/
def capitalize (E : Platform) (word : Str) : Str :=
  E.toUpperCase (word.take 1) ++ E.toLowerCase (word.drop 1)

/-- The variable `element` of `search`: the normalized query. -/
def searchElement (E : Platform) (q : Str) : Str :=
  joinSpace ((splitSpace (searchInput q)).map (capitalize E))

/-- The four fields `search` tries, in the order it tries them. -/
inductive Field where
  | title
  | category
  | country
  | location
  deriving DecidableEq, Repr

/-- Whether the test `m` of a regular expression holds of a field of a
listing; on the array `category`, whether it holds of one of its elements. -/
def Field.test (m : Str → Bool) (l : Listing) : Field → Bool
  | Field.title => l.title.any m
  | Field.category => l.category.any m
  | Field.country => l.country.any m
  | Field.location => l.location.any m

/-- The query `Listing.find({ field: { $regex: element, $options: "i" } })`
for the compiled expression `m`, in natural order. -/
def findByRegex (store : Store) (m : Str → Bool) (f : Field) : List Listing :=
  store.filter (fun l => f.test m l)

/-- The value of `res.locals.success` for each field. -/
def Field.success : Field → Str
  | Field.title => js "Listings searched by Title!"
  | Field.category => js "Listings searched by Category!"
  | Field.country => js "Listings searched by Country!"
  | Field.location => js "Listings searched by Location!"

/-- The query `Listing.find({ price: { $lte: v } }).sort({ price: 1 })`. -/
def findByPrice (store : Store) (v : JSNumber) : List Listing :=
  (store.filter (fun l => priceLte l.price v)).insertionSort priceAsc

/-- Handler `search`; `q` is `req.query.q`. -/
def search (E : Platform) (store : Store) (q : Str) : Outcome :=
  let input := searchInput q
  if input = [] ∨ input = js " " then
    flashRedirect store FlashKind.error (js "Please enter a search query!") Path.listings
  else
    let element := searchElement E q
    match E.regex element with
    | none => raise store Raised.queryError
    | some m =>
      let byTitle := findByRegex store m Field.title
      if byTitle.length ≠ 0 then renderIndex store Field.title.success byTitle
      else
        let byCategory := (findByRegex store m Field.category).insertionSort idDesc
        if byCategory.length ≠ 0 then renderIndex store Field.category.success byCategory
        else
          let byCountry := (findByRegex store m Field.country).insertionSort idDesc
          if byCountry.length ≠ 0 then renderIndex store Field.country.success byCountry
          else
            let byLocation := (findByRegex store m Field.location).insertionSort idDesc
            if byLocation.length ≠ 0 then renderIndex store Field.location.success byLocation
            else
              let noResults :=
                flashRedirect store FlashKind.error
                  (js "No listings found based on your search!") Path.listings
              let intValue := parseInt element
              if intValue ≠ JSNumber.nan then
                let byPrice := findByPrice store intValue
                if byPrice.length ≠ 0 then
                  renderIndex store
                    (js "Listings searched by price less than Rs " ++ element ++ js "!") byPrice
                else noResults
              else noResults

/-- Handler `destroyListing`. -/
def destroyListing (store : Store) (id : ObjectId) : Outcome :=
  flashRedirect (deleteById store id) FlashKind.success (js "Listing deleted!") Path.listings

/-! ## Vocabulary of the statements -/

/-- The place of a field in the order `search` tries them. -/
def Field.rank : Field → Nat
  | Field.title => 0
  | Field.category => 1
  | Field.country => 2
  | Field.location => 3

/-- A law of the case mappings of the platform: they leave strings of digits
and minus signs as they are. -/
def FixesNumerals (E : Platform) : Prop :=
  ∀ s : Str, (∀ c ∈ s, isDigit c = true ∨ c = 0x2D) → E.toUpperCase s = s ∧ E.toLowerCase s = s

instance : IsTotal Listing priceAsc :=
  ⟨fun a b => by
    unfold priceAsc
    cases a.price <;> cases b.price <;> simp
    exact le_total _ _⟩

instance : IsTrans Listing priceAsc :=
  ⟨fun a b c => by
    unfold priceAsc
    cases a.price <;> cases b.price <;> cases c.price <;> simp
    exact fun h1 h2 => le_trans h1 h2⟩

/-- The words of a query as the specification describes them: the maximal
runs of `q` without white space, in their order, that is the pieces of `q`
between its white-space characters that are not empty. It is compared with
what `search` computes by `trim`, `replace` and `split`. -/
def wordsOf (q : Str) : List Str :=
  (q.splitOnP isWhiteSpace).filter (fun w => decide (w ≠ []))

/-- Title case as the specification describes it: the first character of the
word in upper case and the others in lower case. It is compared with
`capitalize`. -/
def titleCase (E : Platform) : Str → Str
  | [] => []
  | c :: cs => E.toUpperCase [c] ++ E.toLowerCase cs

/-- A law of the case mappings of the platform: they send a string without
white space to a string without white space, and a non-empty one to a
non-empty one. -/
def KeepsWords (E : Platform) : Prop :=
  ∀ s : Str, (∀ c ∈ s, isWhiteSpace c = false) →
    (∀ c ∈ E.toUpperCase s, isWhiteSpace c = false) ∧
    (∀ c ∈ E.toLowerCase s, isWhiteSpace c = false) ∧
    (s ≠ [] → E.toUpperCase s ≠ [])

/-- No two adjacent spaces. -/
def NoDoubleSpace (s : Str) : Prop := List.Chain' (fun a b => ¬ (a = 0x20 ∧ b = 0x20)) s

/-- Whether a string begins, after white space and an optional sign, with a
decimal digit. -/
def beginsWithInteger (s : Str) : Bool :=
  match s.dropWhile isWhiteSpace with
  | [] => false
  | c :: cs =>
    if c = 0x2D ∨ c = 0x2B then
      match cs with
      | [] => false
      | d :: _ => isDigit d
    else isDigit c

/-! ## A concrete platform -/

/-- Upper case of the letters `a` to `z`. -/
def asciiUpper (s : Str) : Str := s.map (fun c => if 0x61 ≤ c ∧ c ≤ 0x7A then c - 0x20 else c)

/-- Lower case of the letters `A` to `Z`. -/
def asciiLower (s : Str) : Str := s.map (fun c => if 0x41 ≤ c ∧ c ≤ 0x5A then c + 0x20 else c)

/-- The characters with a special meaning in a regular expression. -/
def isMetaChar (c : Nat) : Bool := c ∈ js "\\^$.|?*+()[]\x7b\x7d"

/-- The test of a pattern without special character: it occurs in the
string, case aside. -/
def literalTest (pattern : Str) (s : Str) : Bool :=
  occursIn (asciiLower pattern) (asciiLower s)

/-- A regular-expression engine for the patterns without special character,
which match where they occur, case aside; the other patterns are rejected. -/
def literalRegex (pattern : Str) : Option (Str → Bool) :=
  if pattern.any isMetaChar then none else some (literalTest pattern)

/-- Whether a pattern of ordinary characters and dots matches at the start of
a string: a dot stands for any character but the line feed, an ordinary
character for itself, case aside. -/
def dotMatchAt : Str → Str → Bool
  | [], _ => true
  | _ :: _, [] => false
  | p :: ps, c :: cs =>
    ((p = 0x2E ∧ c ≠ 0x0A) ∨ asciiLower [p] = asciiLower [c]) && dotMatchAt ps cs

/-- The test of a pattern of ordinary characters and dots: it matches
somewhere in the string. -/
def dotTest (pattern : Str) (s : Str) : Bool :=
  s.tails.any (fun t => dotMatchAt pattern t)

/-- A regular-expression engine for the patterns whose only special character
is the dot; the other patterns with a special character are rejected. -/
def dotRegex (pattern : Str) : Option (Str → Bool) :=
  if pattern.any (fun c => isMetaChar c && c != 0x2E) then none else some (dotTest pattern)

/-- A geocoder that knows one place. -/
def sampleGeocoder (query : Option Str) : GeoResponse :=
  match query with
  | none => GeoResponse.failure
  | some s =>
    if s = js "Goa" then
      GeoResponse.features [{ type := js "Point", coordinates := [73.8278, 15.4989] }]
    else if s = js "" then GeoResponse.failure
    else GeoResponse.features []

/-- A platform for strings of ASCII letters: the case mappings of ASCII, the
engine `literalRegex`, the geocoder `sampleGeocoder`, and a schema that
requires a title. -/
def sample : Platform :=
  { toUpperCase := asciiUpper
    toLowerCase := asciiLower
    regex := literalRegex
    forwardGeocode := sampleGeocoder
    validate := fun l => l.title.isSome }

/-- The platform `sample` with the engine `dotRegex`. -/
def dotSample : Platform :=
  { toUpperCase := asciiUpper
    toLowerCase := asciiLower
    regex := dotRegex
    forwardGeocode := sampleGeocoder
    validate := fun l => l.title.isSome }

/-! ## Sample data -/

/-- A listing with the fields the examples look at. -/
def sampleListing (id : ObjectId) (title : String) (category : List String) (country location : String)
    (price : ℚ) : Listing :=
  { _id := id
    title := some (js title)
    description := none
    image := some { filename := js "pic", url := js "http://img/upload/pic.jpg" }
    price := some price
    location := some (js location)
    country := some (js country)
    category := category.map js
    geometry := none
    owner := none
    reviews := [] }

/-- A store of three listings. -/
def sampleStore : Store :=
  [ sampleListing 1 "Sea villa" ["Beach"] "India" "Goa" 1200,
    sampleListing 2 "Villa Rosa" ["Rooms"] "Italy" "Rome" 300,
    sampleListing 3 "Hut" ["Rooms", "Villa"] "India" "Manali" 10 ]

/-- A body that submits nothing. -/
def emptyBody : ListingBody :=
  { title := none, description := none, image := none, price := none, location := none,
    country := none, category := none, geometry := none, owner := none, reviews := none }

/-- A creation request whose location the sample geocoder does not know. -/
def unknownPlaceRequest : CreateRequest :=
  { body := { emptyBody with title := some (js "Cabin"), location := some (js "Atlantis") }
    user := some 7
    file := some { filename := js "cabin", path := js "http://img/upload/cabin.jpg" } }

/-- A creation request on which the sample geocoder fails. -/
def failingPlaceRequest : CreateRequest :=
  { body := { emptyBody with title := some (js "Cabin"), location := some (js "") }
    user := some 7
    file := some { filename := js "cabin", path := js "http://img/upload/cabin.jpg" } }

/-- An update request for an identifier that is not in `sampleStore`, with an
uploaded file. -/
def missingUpdateWithFile : UpdateRequest :=
  { id := 9
    body := { emptyBody with title := some (js "Cabin") }
    file := some { filename := js "cabin", path := js "http://img/upload/cabin.jpg" } }

/-- An update request without an uploaded file whose body submits an image. -/
def imageInBodyRequest : UpdateRequest :=
  { id := 1
    body := { emptyBody with image := some { filename := js "other", url := js "http://elsewhere/x.png" } }
    file := none }

/-- An update request without an uploaded file and without an image in the
body. -/
def retitleRequest : UpdateRequest :=
  { id := 1
    body := { emptyBody with title := some (js "Sea cottage"), location := some (js "Goa") }
    file := none }

/-- A store of three listings, one with a dot in its location and one with a
plus sign in its title. -/
def oddStore : Store :=
  [ sampleListing 1 "Sea villa" ["Beach"] "India" "Goa" 1200,
    sampleListing 2 "Hut" ["Rooms"] "India" "Sea.villa Road" 300,
    sampleListing 3 "Flat +5" ["Rooms"] "India" "Pune" 500 ]

/-- The store `sampleStore` with a listing of a very high price. -/
def grandStore : Store :=
  sampleStore ++ [sampleListing 4 "Palace" ["Castles"] "India" "Jaipur" 18014398509481988]

/-! ## Properties of the store operations -/

theorem findById_eq_none {store : Store} {id : ObjectId} :
    findById store id = none ↔ ∀ l ∈ store, l._id ≠ id := by
  simp [findById, List.find?_eq_none]

theorem deleteById_of_absent {store : Store} {id : ObjectId} (h : ∀ l ∈ store, l._id ≠ id) :
    deleteById store id = store := by
  unfold deleteById
  apply List.eraseP_of_forall_not
  intro l hl
  simpa using h l hl

theorem absent_after_deleteById {store : Store} {id : ObjectId}
    (hnd : (store.map (fun l => l._id)).Nodup) :
    ∀ l ∈ deleteById store id, l._id ≠ id := by
  induction store with
  | nil => simp [deleteById]
  | cons a t ih =>
    rw [List.map_cons, List.nodup_cons] at hnd
    unfold deleteById
    by_cases ha : a._id = id
    · rw [List.eraseP_cons_of_pos (by simpa using ha)]
      intro l hl heq
      exact hnd.1 (List.mem_map.2 ⟨l, hl, heq.trans ha.symm⟩)
    · rw [List.eraseP_cons_of_neg (by simpa using ha)]
      intro l hl
      rcases List.mem_cons.1 hl with rfl | hl
      · exact ha
      · exact ih hnd.2 l hl

theorem applyUpdate_id (l : Listing) (b : ListingBody) : (applyUpdate l b)._id = l._id := rfl

theorem findById_updateById {store : Store} {id : ObjectId} {b : ListingBody} {l : Listing}
    (h : findById store id = some l) :
    findById (updateById store id b) id = some (applyUpdate l b) := by
  induction store with
  | nil => simp [findById] at h
  | cons a t ih =>
    unfold findById updateById at *
    by_cases ha : a._id = id
    · have ha2 : (applyUpdate a b)._id = id := by rw [applyUpdate_id]; exact ha
      simp only [List.map_cons, List.find?_cons, ha, decide_True, if_true, ha2] at h ⊢
      rw [Option.some.inj h]
    · simp only [List.map_cons, List.find?_cons, ha, decide_False, if_false] at h ⊢
      exact ih h

/-! ## Filter -/

/-- C9: when no listing's category collection contains the tag, `filter`
renders nothing, flashes an error and redirects to the list; when some
listing's does, it renders the list view with exactly the listings of the
store whose category collection contains the tag. -/
theorem filter_by_tag (store : Store) (tag : Str) :
    ((∀ l ∈ store, tag ∉ l.category) →
      filter store tag =
        { store := store
          flash := [⟨FlashKind.error, js "There are no listings for " ++ tag ++ js "!"⟩]
          ending := Ending.replied (Reply.redirect Path.listings) }) ∧
    ((∃ l ∈ store, tag ∈ l.category) →
      ∃ ls : List Listing,
        filter store tag =
          { store := store
            flash := []
            ending := Ending.replied
              (Reply.render (js "listings/index.ejs")
                (some (js "Listings filtered by " ++ tag ++ js "!")) (Payload.allListings ls)) } ∧
        ls.Sublist store ∧ ∀ l, l ∈ ls ↔ l ∈ store ∧ tag ∈ l.category) := by
  constructor
  · intro h
    have hnil : store.filter (fun l => decide (tag ∈ l.category)) = [] := by
      rw [List.filter_eq_nil_iff]
      intro l hl
      simpa using h l hl
    simp [filter, hnil, flashRedirect]
  · rintro ⟨l, hl, hmem⟩
    refine ⟨store.filter (fun l => decide (tag ∈ l.category)), ?_, List.filter_sublist _, ?_⟩
    · have hne : store.filter (fun l => decide (tag ∈ l.category)) ≠ [] := by
        intro hnil
        rw [List.filter_eq_nil_iff] at hnil
        exact hnil l hl (by simpa using hmem)
      simp [filter, hne, renderIndex]
    · intro x
      simp [List.mem_filter]

theorem filter_by_tag_witness :
    ((∀ l ∈ sampleStore, js "Castle" ∉ l.category) ∧
      filter sampleStore (js "Castle") =
        { store := sampleStore
          flash := [⟨FlashKind.error, js "There are no listings for " ++ js "Castle" ++ js "!"⟩]
          ending := Ending.replied (Reply.redirect Path.listings) }) ∧
    ((∃ l ∈ sampleStore, js "Rooms" ∈ l.category) ∧
      ∃ ls : List Listing,
        filter sampleStore (js "Rooms") =
          { store := sampleStore
            flash := []
            ending := Ending.replied
              (Reply.render (js "listings/index.ejs")
                (some (js "Listings filtered by " ++ js "Rooms" ++ js "!"))
                (Payload.allListings ls)) } ∧
        ls.Sublist sampleStore ∧ ∀ l, l ∈ ls ↔ l ∈ sampleStore ∧ js "Rooms" ∈ l.category) :=
  ⟨⟨by decide, (filter_by_tag sampleStore (js "Castle")).1 (by decide)⟩,
   ⟨by decide, (filter_by_tag sampleStore (js "Rooms")).2 (by decide)⟩⟩

/-! ## Delete -/

/-- C10: for an identifier that matches no stored listing, `destroyListing`
raises nothing, leaves the store as it is, flashes success and redirects to
the list; and in a store whose identifiers are pairwise distinct, deleting an
identifier a second time gives the same store and the same response as
deleting it once. -/
theorem destroyListing_absent (store : Store) (id : ObjectId) :
    ((∀ l ∈ store, l._id ≠ id) →
      destroyListing store id =
        { store := store
          flash := [⟨FlashKind.success, js "Listing deleted!"⟩]
          ending := Ending.replied (Reply.redirect Path.listings) }) ∧
    ((store.map (fun l => l._id)).Nodup →
      destroyListing (destroyListing store id).store id = destroyListing store id) := by
  constructor
  · intro h
    simp [destroyListing, flashRedirect, deleteById_of_absent h]
  · intro hnd
    have h := deleteById_of_absent (@absent_after_deleteById store id hnd)
    simp [destroyListing, flashRedirect, h]

theorem destroyListing_absent_witness :
    ((∀ l ∈ sampleStore, l._id ≠ 9) ∧
      destroyListing sampleStore 9 =
        { store := sampleStore
          flash := [⟨FlashKind.success, js "Listing deleted!"⟩]
          ending := Ending.replied (Reply.redirect Path.listings) }) ∧
    ((sampleStore.map (fun l => l._id)).Nodup ∧
      destroyListing (destroyListing sampleStore 2).store 2 = destroyListing sampleStore 2) :=
  ⟨⟨by decide, (destroyListing_absent sampleStore 9).1 (by decide)⟩,
   ⟨by decide, (destroyListing_absent sampleStore 2).2 (by decide)⟩⟩

/-! ## Create -/

/-- C7: when the request has a user and an uploaded file, the geocoder
returns an empty feature list or fails, and the document passes the schema,
`createListing` raises nothing, stores the new listing with the geometry
`Point (77.2090, 28.6139)`, flashes success and redirects to the list. -/
theorem createListing_default_geometry (E : Platform) (store : Store) (newId : ObjectId)
    (req : CreateRequest) (user : ObjectId) (file : UploadedFile)
    (huser : req.user = some user) (hfile : req.file = some file)
    (hgeo : E.forwardGeocode req.body.location = GeoResponse.features [] ∨
      E.forwardGeocode req.body.location = GeoResponse.failure)
    (hvalid : E.validate
      { newListing newId req.body with
        owner := some user
        image := some { filename := file.filename, url := file.path }
        geometry := some defaultGeometry } = true) :
    ∃ doc : Listing,
      createListing E store newId req =
        { store := store ++ [doc]
          flash := [⟨FlashKind.success, js "New listing created!"⟩]
          ending := Ending.replied (Reply.redirect Path.listings) } ∧
      doc.geometry = some { type := js "Point", coordinates := [77.2090, 28.6139] } ∧
      doc._id = newId ∧ doc.owner = some user ∧
      doc.image = some { filename := file.filename, url := file.path } := by
  have hg : geocode E req.body.location = defaultGeometry := by
    unfold geocode
    rcases hgeo with h | h <;> rw [h]
  refine ⟨{ newListing newId req.body with
      owner := some user
      image := some { filename := file.filename, url := file.path }
      geometry := some defaultGeometry }, ?_, rfl, rfl, rfl, rfl⟩
  simp only [createListing, huser, hfile, hg, hvalid, if_true, flashRedirect]

theorem createListing_default_geometry_witness :
    (sample.forwardGeocode unknownPlaceRequest.body.location = GeoResponse.features [] ∧
      ∃ doc : Listing,
        createListing sample sampleStore 4 unknownPlaceRequest =
          { store := sampleStore ++ [doc]
            flash := [⟨FlashKind.success, js "New listing created!"⟩]
            ending := Ending.replied (Reply.redirect Path.listings) } ∧
        doc.geometry = some { type := js "Point", coordinates := [77.2090, 28.6139] } ∧
        doc._id = 4 ∧ doc.owner = some 7 ∧
        doc.image = some { filename := js "cabin", url := js "http://img/upload/cabin.jpg" }) ∧
    (sample.forwardGeocode failingPlaceRequest.body.location = GeoResponse.failure ∧
      ∃ doc : Listing,
        createListing sample sampleStore 4 failingPlaceRequest =
          { store := sampleStore ++ [doc]
            flash := [⟨FlashKind.success, js "New listing created!"⟩]
            ending := Ending.replied (Reply.redirect Path.listings) } ∧
        doc.geometry = some { type := js "Point", coordinates := [77.2090, 28.6139] } ∧
        doc._id = 4 ∧ doc.owner = some 7 ∧
        doc.image = some { filename := js "cabin", url := js "http://img/upload/cabin.jpg" }) :=
  ⟨⟨by decide,
    createListing_default_geometry sample sampleStore 4 unknownPlaceRequest 7
      { filename := js "cabin", path := js "http://img/upload/cabin.jpg" } rfl rfl
      (Or.inl (by decide)) (by decide)⟩,
   ⟨by decide,
    createListing_default_geometry sample sampleStore 4 failingPlaceRequest 7
      { filename := js "cabin", path := js "http://img/upload/cabin.jpg" } rfl rfl
      (Or.inr (by decide)) (by decide)⟩⟩

/-! ## Lookups that miss -/

/-- With an uploaded file and an identifier that matches no listing,
`updateListing` ends in a `TypeError`, whatever the store and the platform. -/
theorem updateListing_raises_of_missing (E : Platform) (store : Store) (req : UpdateRequest)
    (file : UploadedFile) (hfile : req.file = some file)
    (hmiss : findById store req.id = none) :
    (updateListing E store req).ending = Ending.raised Raised.typeError ∧
    (updateListing E store req).flash = [] := by
  simp only [updateListing, hfile, hmiss, raise, and_self]

/-- With an identifier that matches no listing, `showListing` and
`renderEditForm` flash an error and redirect to the list. -/
theorem lookup_recovers_of_missing (store : Store) (id : ObjectId)
    (hmiss : findById store id = none) :
    showListing store id =
      flashRedirect store FlashKind.error (js "Listing you requested for does not exist!")
        Path.listings ∧
    renderEditForm store id =
      flashRedirect store FlashKind.error
        (js "Listing you are trying to edit does not exist!") Path.listings := by
  simp only [showListing, renderEditForm, hmiss, and_self]

/-- C4: for the identifier 9, which matches no listing of `sampleStore`,
`showListing` and `renderEditForm` flash an error and redirect to the list,
and `updateListing` without an uploaded file flashes and redirects; with an
uploaded file `updateListing` raises a `TypeError` and neither flashes nor
redirects. -/
theorem updateListing_missing_with_file_raises :
    findById sampleStore 9 = none ∧
    showListing sampleStore 9 =
      { store := sampleStore
        flash := [⟨FlashKind.error, js "Listing you requested for does not exist!"⟩]
        ending := Ending.replied (Reply.redirect Path.listings) } ∧
    renderEditForm sampleStore 9 =
      { store := sampleStore
        flash := [⟨FlashKind.error, js "Listing you are trying to edit does not exist!"⟩]
        ending := Ending.replied (Reply.redirect Path.listings) } ∧
    updateListing sample sampleStore { missingUpdateWithFile with file := none } =
      { store := sampleStore
        flash := [⟨FlashKind.success, js "Listing updated!"⟩]
        ending := Ending.replied (Reply.redirect (Path.listing 9)) } ∧
    updateListing sample sampleStore missingUpdateWithFile =
      { store := sampleStore, flash := [], ending := Ending.raised Raised.typeError } := by
  decide

/-! ## Update -/

/-- C3, as stated, fails: the request `imageInBodyRequest` carries no uploaded
file, and after the update the image of listing 1 is the one of the body, not
the one stored before. -/
theorem updateListing_body_image_overwrites :
    imageInBodyRequest.file = none ∧
    (findById sampleStore 1).map (fun l => l.image) =
      some (some { filename := js "pic", url := js "http://img/upload/pic.jpg" }) ∧
    (findById (updateListing sample sampleStore imageInBodyRequest).store 1).map
        (fun l => l.image) =
      some (some { filename := js "other", url := js "http://elsewhere/x.png" }) := by
  decide

/-- C3, amended: for every stored listing and every update request that
carries no uploaded file and whose body submits no image, the listing found
under the identifier after the update has the image fields it had before;
the handler flashes success and redirects to the listing. -/
theorem updateListing_keeps_image (E : Platform) (store : Store) (req : UpdateRequest)
    (l : Listing) (hfile : req.file = none) (hbody : req.body.image = none)
    (hfound : findById store req.id = some l) :
    ∃ l1 : Listing,
      findById (updateListing E store req).store req.id = some l1 ∧
      l1.image = l.image ∧
      (updateListing E store req).flash = [⟨FlashKind.success, js "Listing updated!"⟩] ∧
      (updateListing E store req).ending =
        Ending.replied (Reply.redirect (Path.listing req.id)) := by
  refine ⟨applyUpdate l { req.body with geometry := some (geocode E
    (some (interpolate req.body.location ++ js "," ++ interpolate req.body.country))) }, ?_, ?_, ?_, ?_⟩
  · simp only [updateListing, hfile, flashRedirect]
    exact findById_updateById hfound
  · simp [applyUpdate, hbody]
  · simp only [updateListing, hfile, flashRedirect]
  · simp only [updateListing, hfile, flashRedirect]

theorem updateListing_keeps_image_witness :
    retitleRequest.file = none ∧ retitleRequest.body.image = none ∧
    findById sampleStore retitleRequest.id =
      some (sampleListing 1 "Sea villa" ["Beach"] "India" "Goa" 1200) ∧
    ∃ l1 : Listing,
      findById (updateListing sample sampleStore retitleRequest).store retitleRequest.id =
        some l1 ∧
      l1.image = (sampleListing 1 "Sea villa" ["Beach"] "India" "Goa" 1200).image ∧
      (updateListing sample sampleStore retitleRequest).flash =
        [⟨FlashKind.success, js "Listing updated!"⟩] ∧
      (updateListing sample sampleStore retitleRequest).ending =
        Ending.replied (Reply.redirect (Path.listing retitleRequest.id)) :=
  ⟨rfl, rfl, by decide,
   updateListing_keeps_image sample sampleStore retitleRequest
     (sampleListing 1 "Sea villa" ["Beach"] "India" "Goa" 1200) rfl rfl (by decide)⟩

/-! ## Search -/

theorem isWhiteSpace_space : isWhiteSpace 0x20 = true := by decide

theorem dropWhile_head_not {p : Nat → Bool} {c : Nat} {t : Str} :
    ∀ {l : Str}, l.dropWhile p = c :: t → p c = false
  | [], h => by simp at h
  | a :: l, h => by
    by_cases ha : p a = true
    · rw [List.dropWhile_cons_of_pos ha] at h
      exact dropWhile_head_not h
    · rw [List.dropWhile_cons_of_neg ha] at h
      have := (List.cons.inj h).1
      subst this
      simpa using ha

/-- A query with a character that is not white space is trimmed to a string
that begins with such a character. -/
theorem trim_head {q : Str} (hq : ∃ c ∈ q, isWhiteSpace c = false) :
    ∃ c cs, trim q = c :: cs ∧ isWhiteSpace c = false := by
  obtain ⟨x, hx, hxw⟩ := hq
  have hd : q.dropWhile isWhiteSpace ≠ [] := by
    intro h
    rw [List.dropWhile_eq_nil_iff] at h
    have := h x hx
    simp [hxw] at this
  obtain ⟨c, d, hcd⟩ := List.exists_cons_of_ne_nil hd
  have hc : isWhiteSpace c = false := dropWhile_head_not hcd
  have htrim : trim q = (c :: d).rdropWhile isWhiteSpace := by
    unfold trim List.rdropWhile
    rw [hcd]
  have hne : (c :: d).rdropWhile isWhiteSpace ≠ [] := by
    intro h
    rw [List.rdropWhile_eq_nil_iff] at h
    have := h c (List.mem_cons_self _ _)
    simp [hc] at this
  obtain ⟨c1, r, hr⟩ := List.exists_cons_of_ne_nil hne
  have hpre : (c1 :: r) <+: (c :: d) := hr ▸ List.rdropWhile_prefix _ _
  obtain ⟨k, hk⟩ := hpre
  have hc1 : c1 = c := by
    simp at hk
    exact hk.1
  exact ⟨c, r, by rw [htrim, hr, hc1], hc⟩

theorem searchInput_nonblank {q : Str} (hq : ∃ c ∈ q, isWhiteSpace c = false) :
    ¬ (searchInput q = [] ∨ searchInput q = js " ") := by
  obtain ⟨c, cs, htrim, hc⟩ := trim_head hq
  have h : searchInput q = c :: collapseFrom false cs := by
    simp [searchInput, collapseSpaces, htrim, collapseFrom, hc]
  rw [h]
  rintro (h1 | h1)
  · simp at h1
  · have : c = 0x20 := by
      have h2 : js " " = [0x20] := by decide
      rw [h2] at h1
      exact (List.cons.inj h1).1
    rw [this] at hc
    simp [isWhiteSpace_space] at hc

theorem length_ne_zero_iff {α : Type} (l : List α) : l.length ≠ 0 ↔ l ≠ [] := by
  simp

/-- The cascade of `search` once the query is known not to be blank and the
regular expression is compiled. -/
theorem search_eq_cascade (E : Platform) (store : Store) (q : Str) (m : Str → Bool)
    (hq : ∃ c ∈ q, isWhiteSpace c = false) (hm : E.regex (searchElement E q) = some m) :
    search E store q =
      if findByRegex store m Field.title ≠ [] then
        renderIndex store Field.title.success (findByRegex store m Field.title)
      else if findByRegex store m Field.category ≠ [] then
        renderIndex store Field.category.success
          ((findByRegex store m Field.category).insertionSort idDesc)
      else if findByRegex store m Field.country ≠ [] then
        renderIndex store Field.country.success
          ((findByRegex store m Field.country).insertionSort idDesc)
      else if findByRegex store m Field.location ≠ [] then
        renderIndex store Field.location.success
          ((findByRegex store m Field.location).insertionSort idDesc)
      else if parseInt (searchElement E q) ≠ JSNumber.nan ∧
          findByPrice store (parseInt (searchElement E q)) ≠ [] then
        renderIndex store
          (js "Listings searched by price less than Rs " ++ searchElement E q ++ js "!")
          (findByPrice store (parseInt (searchElement E q)))
      else
        flashRedirect store FlashKind.error (js "No listings found based on your search!")
          Path.listings := by
  unfold search
  simp only [if_neg (searchInput_nonblank hq), hm, length_ne_zero_iff, List.length_insertionSort]
  by_cases h1 : findByRegex store m Field.title ≠ []
  · rw [if_pos h1, if_pos h1]
  rw [if_neg h1, if_neg h1]
  by_cases h2 : findByRegex store m Field.category ≠ []
  · rw [if_pos h2, if_pos h2]
  rw [if_neg h2, if_neg h2]
  by_cases h3 : findByRegex store m Field.country ≠ []
  · rw [if_pos h3, if_pos h3]
  rw [if_neg h3, if_neg h3]
  by_cases h4 : findByRegex store m Field.location ≠ []
  · rw [if_pos h4, if_pos h4]
  rw [if_neg h4, if_neg h4]
  by_cases h5 : parseInt (searchElement E q) ≠ JSNumber.nan
  · by_cases h6 : findByPrice store (parseInt (searchElement E q)) ≠ []
    · rw [if_pos h5, if_pos h6, if_pos ⟨h5, h6⟩]
    · rw [if_pos h5, if_neg h6, if_neg (fun h => h6 h.2)]
  · rw [if_neg h5, if_neg (fun h => h5 h.1)]

theorem findByRegex_eq_nil {store : Store} {m : Str → Bool} {f : Field} :
    findByRegex store m f = [] ↔ ∀ l ∈ store, f.test m l = false := by
  simp [findByRegex, List.filter_eq_nil_iff]

theorem findByRegex_ne_nil {store : Store} {m : Str → Bool} {f : Field} :
    findByRegex store m f ≠ [] ↔ ∃ l ∈ store, f.test m l = true := by
  rw [Ne, findByRegex_eq_nil]
  push_neg
  simp

theorem mem_findByRegex {store : Store} {m : Str → Bool} {f : Field} {l : Listing} :
    l ∈ findByRegex store m f ↔ l ∈ store ∧ f.test m l = true := by
  simp [findByRegex, List.mem_filter]

/-- C1, amended: for a query with a character that is not white space whose
normalized form the store accepts as a regular expression, and `m` the test of
that case-insensitive regular expression: when some listing matches on the
field `f` and no listing matches on a field tried before `f` (the order is
title, category, country, location), `search` renders the list view with
exactly the listings that match on `f`; in particular, when a listing matches
on its title and another listing on its category and not on its title, the
title matches are rendered and the other listing is not. -/
theorem search_first_matching_field (E : Platform) (store : Store) (q : Str) (m : Str → Bool)
    (hq : ∃ c ∈ q, isWhiteSpace c = false) (hm : E.regex (searchElement E q) = some m) :
    (∀ f : Field, (∃ l ∈ store, f.test m l = true) →
      (∀ g : Field, g.rank < f.rank → ∀ l ∈ store, g.test m l = false) →
      ∃ ls : List Listing,
        search E store q =
          { store := store
            flash := []
            ending := Ending.replied
              (Reply.render (js "listings/index.ejs") (some f.success) (Payload.allListings ls)) } ∧
        ls.Perm (store.filter (fun l => f.test m l)) ∧
        ∀ l, l ∈ ls ↔ l ∈ store ∧ f.test m l = true) ∧
    (∀ a ∈ store, ∀ b ∈ store, Field.title.test m a = true → Field.category.test m b = true →
      Field.title.test m b = false →
      ∃ ls : List Listing,
        search E store q =
          { store := store
            flash := []
            ending := Ending.replied
              (Reply.render (js "listings/index.ejs") (some (js "Listings searched by Title!"))
                (Payload.allListings ls)) } ∧
        a ∈ ls ∧ b ∉ ls) := by
  have hcas := search_eq_cascade E store q m hq hm
  constructor
  · intro f hf hfirst
    have hne : findByRegex store m f ≠ [] := findByRegex_ne_nil.2 hf
    cases f with
    | title =>
      refine ⟨findByRegex store m Field.title, ?_, List.Perm.refl _, fun l => mem_findByRegex⟩
      rw [hcas, if_pos hne]; rfl
    | category =>
      have h0 : findByRegex store m Field.title = [] :=
        findByRegex_eq_nil.2 (hfirst Field.title (by decide))
      refine ⟨(findByRegex store m Field.category).insertionSort idDesc, ?_,
        List.perm_insertionSort _ _, fun l => ?_⟩
      · rw [hcas, if_neg (by simp [h0]), if_pos hne]; rfl
      · rw [(List.perm_insertionSort _ _).mem_iff]; exact mem_findByRegex
    | country =>
      have h0 : findByRegex store m Field.title = [] :=
        findByRegex_eq_nil.2 (hfirst Field.title (by decide))
      have h1 : findByRegex store m Field.category = [] :=
        findByRegex_eq_nil.2 (hfirst Field.category (by decide))
      refine ⟨(findByRegex store m Field.country).insertionSort idDesc, ?_,
        List.perm_insertionSort _ _, fun l => ?_⟩
      · rw [hcas, if_neg (by simp [h0]), if_neg (by simp [h1]), if_pos hne]; rfl
      · rw [(List.perm_insertionSort _ _).mem_iff]; exact mem_findByRegex
    | location =>
      have h0 : findByRegex store m Field.title = [] :=
        findByRegex_eq_nil.2 (hfirst Field.title (by decide))
      have h1 : findByRegex store m Field.category = [] :=
        findByRegex_eq_nil.2 (hfirst Field.category (by decide))
      have h2 : findByRegex store m Field.country = [] :=
        findByRegex_eq_nil.2 (hfirst Field.country (by decide))
      refine ⟨(findByRegex store m Field.location).insertionSort idDesc, ?_,
        List.perm_insertionSort _ _, fun l => ?_⟩
      · rw [hcas, if_neg (by simp [h0]), if_neg (by simp [h1]), if_neg (by simp [h2]),
          if_pos hne]; rfl
      · rw [(List.perm_insertionSort _ _).mem_iff]; exact mem_findByRegex
  · intro a ha b _ hta _ htb
    have hne : findByRegex store m Field.title ≠ [] := findByRegex_ne_nil.2 ⟨a, ha, hta⟩
    refine ⟨findByRegex store m Field.title, ?_, mem_findByRegex.2 ⟨ha, hta⟩, ?_⟩
    · rw [hcas, if_pos hne]; rfl
    · intro hb
      have := (mem_findByRegex.1 hb).2
      rw [htb] at this
      exact Bool.false_ne_true this

/-! ## Numerals -/

theorem numeralFuel_chars (fuel n : Nat) (acc : Str) (hacc : ∀ c ∈ acc, isDigit c = true) :
    ∀ c ∈ numeralFuel fuel n acc, isDigit c = true := by
  induction fuel generalizing n acc with
  | zero => simpa [numeralFuel] using hacc
  | succ fuel ih =>
    unfold numeralFuel
    split_ifs with h
    · intro c hc
      rcases List.mem_cons.1 hc with rfl | hc
      · simp [isDigit]; omega
      · exact hacc c hc
    · apply ih
      intro c hc
      rcases List.mem_cons.1 hc with rfl | hc
      · have := Nat.mod_lt n (show 10 > 0 by norm_num)
        simp [isDigit]; omega
      · exact hacc c hc

theorem numeralFuel_ne_nil (fuel n : Nat) (acc : Str) (h : 0 < fuel ∨ acc ≠ []) :
    numeralFuel fuel n acc ≠ [] := by
  induction fuel generalizing n acc with
  | zero =>
    rcases h with h | h
    · omega
    · simpa [numeralFuel] using h
  | succ fuel ih =>
    unfold numeralFuel
    split_ifs
    · simp
    · exact ih _ _ (Or.inr (by simp))

theorem digitsValue_numeralFuel (fuel n : Nat) (acc : Str) (h : n < fuel) :
    digitsValue (numeralFuel fuel n acc) =
      acc.foldl (fun a d => 10 * a + (d - 0x30)) n := by
  induction fuel generalizing n acc with
  | zero => omega
  | succ fuel ih =>
    unfold numeralFuel
    split_ifs with h10
    · simp [digitsValue]
    · have hlt : n / 10 < fuel := by omega
      rw [ih _ _ hlt, List.foldl_cons]
      congr 1
      omega

theorem natNumeral_chars (n : Nat) : ∀ c ∈ natNumeral n, isDigit c = true :=
  numeralFuel_chars _ _ _ (by simp)

theorem natNumeral_ne_nil (n : Nat) : natNumeral n ≠ [] :=
  numeralFuel_ne_nil _ _ _ (Or.inl (Nat.succ_pos n))

theorem digitsValue_natNumeral (n : Nat) : digitsValue (natNumeral n) = n := by
  unfold natNumeral
  rw [digitsValue_numeralFuel _ _ _ (Nat.lt_succ_self n)]
  rfl

theorem isDigit_not_whiteSpace {c : Nat} (h : isDigit c = true) : isWhiteSpace c = false := by
  simp [isDigit] at h
  simp [isWhiteSpace]
  omega

theorem numeral_chars (n : Int) : ∀ c ∈ numeral n, isDigit c = true ∨ c = 0x2D := by
  intro c hc
  unfold numeral at hc
  split_ifs at hc
  · rcases List.mem_cons.1 hc with rfl | hc
    · exact Or.inr rfl
    · exact Or.inl (natNumeral_chars _ c hc)
  · exact Or.inl (natNumeral_chars _ c hc)

theorem numeral_not_whiteSpace (n : Int) : ∀ c ∈ numeral n, isWhiteSpace c = false := by
  intro c hc
  rcases numeral_chars n c hc with h | rfl
  · exact isDigit_not_whiteSpace h
  · decide

theorem numeral_ne_nil (n : Int) : numeral n ≠ [] := by
  unfold numeral
  split_ifs
  · simp
  · exact natNumeral_ne_nil _

theorem takeWhile_eq_self {p : Nat → Bool} : ∀ {l : Str}, (∀ c ∈ l, p c = true) → l.takeWhile p = l
  | [], _ => rfl
  | a :: l, h => by
    rw [List.takeWhile_cons_of_pos (h a (List.mem_cons_self _ _))]
    rw [takeWhile_eq_self (fun c hc => h c (List.mem_cons_of_mem _ hc))]

theorem dropWhile_eq_self {p : Nat → Bool} : ∀ {l : Str}, (∀ c ∈ l, p c = false) → l.dropWhile p = l
  | [], _ => rfl
  | a :: l, h => by
    rw [List.dropWhile_cons_of_neg (by simp [h a (List.mem_cons_self _ _)])]

/-- The call `parseInt` on the numeral of `n`: the double nearest to `n`. -/
theorem parseInt_numeral (n : Int) (v : Nat) (hv : roundToDouble n.natAbs = some v) :
    parseInt (numeral n) = JSNumber.finite (if n < 0 then -(v : Int) else v) := by
  obtain ⟨d, ds, hd⟩ := List.exists_cons_of_ne_nil (natNumeral_ne_nil n.natAbs)
  have hdig : isDigit d = true := natNumeral_chars n.natAbs d (hd ▸ List.mem_cons_self _ _)
  have hd2D : d ≠ 0x2D := by
    intro h; rw [h] at hdig; exact absurd hdig (by decide)
  have hd2B : d ≠ 0x2B := by
    intro h; rw [h] at hdig; exact absurd hdig (by decide)
  have htake : (natNumeral n.natAbs).takeWhile isDigit = natNumeral n.natAbs :=
    takeWhile_eq_self (natNumeral_chars _)
  unfold parseInt
  rw [dropWhile_eq_self (numeral_not_whiteSpace n)]
  by_cases hneg : n < 0
  · have hnum : numeral n = 0x2D :: natNumeral n.natAbs := by simp [numeral, hneg]
    simp only [hnum, List.head?_cons, true_or, if_true, List.drop_succ_cons, List.drop_zero, htake,
      natNumeral_ne_nil, if_false, digitsValue_natNumeral, hv, hneg]
  · have hnum : numeral n = natNumeral n.natAbs := by simp [numeral, hneg]
    have h1 : ¬ (some d = some 0x2D) := fun h => hd2D (Option.some.inj h)
    have h2 : ¬ (some d = some 0x2B) := fun h => hd2B (Option.some.inj h)
    rw [hnum]
    simp only [hd, List.head?_cons, h1, h2, or_self, if_false]
    rw [← hd]
    simp only [htake, natNumeral_ne_nil, if_false, digitsValue_natNumeral, hv, hneg]

theorem collapseFrom_eq_self (b : Bool) :
    ∀ {s : Str}, (∀ c ∈ s, isWhiteSpace c = false) → collapseFrom b s = s
  | [], _ => rfl
  | a :: s, h => by
    have ha := h a (List.mem_cons_self _ _)
    simp only [collapseFrom, ha, Bool.false_eq_true, if_false]
    rw [collapseFrom_eq_self false (fun c hc => h c (List.mem_cons_of_mem _ hc))]

theorem splitSpace_eq_singleton : ∀ {s : Str}, (∀ c ∈ s, isWhiteSpace c = false) → splitSpace s = [s]
  | [], _ => rfl
  | a :: s, h => by
    have ha := h a (List.mem_cons_self _ _)
    have ha2 : a ≠ 0x20 := by
      intro h2; rw [h2] at ha; exact absurd ha (by decide)
    simp only [splitSpace, ha2, if_false]
    rw [splitSpace_eq_singleton (fun c hc => h c (List.mem_cons_of_mem _ hc))]

theorem trim_eq_self {s : Str} (h : ∀ c ∈ s, isWhiteSpace c = false) : trim s = s := by
  unfold trim
  rw [dropWhile_eq_self h, dropWhile_eq_self (fun c hc => h c (List.mem_reverse.1 hc)),
    List.reverse_reverse]

theorem joinSpace_singleton (w : Str) : joinSpace [w] = w := by
  simp [joinSpace, List.intercalate]

/-- The normalized form of a numeral is the numeral. -/
theorem searchElement_numeral (E : Platform) (hE : FixesNumerals E) (n : Int) :
    searchElement E (numeral n) = numeral n := by
  have hws := numeral_not_whiteSpace n
  have h1 : searchInput (numeral n) = numeral n := by
    unfold searchInput collapseSpaces
    rw [trim_eq_self hws, collapseFrom_eq_self false hws]
  have hup : E.toUpperCase ((numeral n).take 1) = (numeral n).take 1 :=
    (hE _ (fun c hc => numeral_chars n c (List.mem_of_mem_take hc))).1
  have hlow : E.toLowerCase ((numeral n).drop 1) = (numeral n).drop 1 :=
    (hE _ (fun c hc => numeral_chars n c (List.mem_of_mem_drop hc))).2
  have hcap : capitalize E (numeral n) = numeral n := by
    unfold capitalize
    rw [hup, hlow, List.take_append_drop]
  unfold searchElement
  rw [h1, splitSpace_eq_singleton hws, List.map_singleton, hcap, joinSpace_singleton]

/-! ## Price fallback and the other ends of search -/

theorem priceLte_finite {p : Option ℚ} {n : Int} :
    priceLte p (JSNumber.finite n) = true ↔ ∃ x, p = some x ∧ x ≤ (n : ℚ) := by
  cases p <;> simp [priceLte]

theorem mem_findByPrice {store : Store} {n : Int} {l : Listing} :
    l ∈ findByPrice store (JSNumber.finite n) ↔
      l ∈ store ∧ ∃ x, l.price = some x ∧ x ≤ (n : ℚ) := by
  unfold findByPrice
  rw [(List.perm_insertionSort _ _).mem_iff, List.mem_filter, priceLte_finite]

theorem findByPrice_sorted (store : Store) (v : JSNumber) :
    (findByPrice store v).Pairwise
      (fun a b => ∀ x y, a.price = some x → b.price = some y → x ≤ y) := by
  have h : (findByPrice store v).Sorted priceAsc := List.sorted_insertionSort _ _
  refine List.Pairwise.imp ?_ h
  intro a b hab x y hx hy
  unfold priceAsc at hab
  rw [hx, hy] at hab
  exact hab

/-- C5, amended: for every integer `n` whose absolute value is a double (so
that `parseInt` reads the numeral back as `n`), when the query is the decimal
numeral of `n`, no listing matches it on title, category, country or location,
and some listing has a price of at most `n`, `search` renders exactly the
listings with a price of at most `n`, all of them, in ascending order of
price. The case mappings are taken to leave numerals as they are. -/
theorem search_price_fallback (E : Platform) (hE : FixesNumerals E) (store : Store) (n : Int)
    (m : Str → Bool) (hexact : roundToDouble n.natAbs = some n.natAbs)
    (hm : E.regex (numeral n) = some m)
    (hnone : ∀ f : Field, ∀ l ∈ store, f.test m l = false)
    (hsome : ∃ l ∈ store, ∃ x, l.price = some x ∧ x ≤ (n : ℚ)) :
    ∃ ls : List Listing,
      search E store (numeral n) =
        { store := store
          flash := []
          ending := Ending.replied
            (Reply.render (js "listings/index.ejs")
              (some (js "Listings searched by price less than Rs " ++ numeral n ++ js "!"))
              (Payload.allListings ls)) } ∧
      ls.Perm (store.filter (fun l => priceLte l.price (JSNumber.finite n))) ∧
      (∀ l, l ∈ ls ↔ l ∈ store ∧ ∃ x, l.price = some x ∧ x ≤ (n : ℚ)) ∧
      ls.Pairwise (fun a b => ∀ x y, a.price = some x → b.price = some y → x ≤ y) := by
  have hel : searchElement E (numeral n) = numeral n := searchElement_numeral E hE n
  have hq : ∃ c ∈ numeral n, isWhiteSpace c = false := by
    obtain ⟨c, cs, hc⟩ := List.exists_cons_of_ne_nil (numeral_ne_nil n)
    exact ⟨c, hc ▸ List.mem_cons_self _ _,
      numeral_not_whiteSpace n c (hc ▸ List.mem_cons_self _ _)⟩
  have hparse : parseInt (numeral n) = JSNumber.finite n := by
    rw [parseInt_numeral n _ hexact]
    congr 1
    split_ifs <;> omega
  have hcas := search_eq_cascade E store (numeral n) m hq (by rw [hel]; exact hm)
  rw [hel, hparse] at hcas
  have hnil : ∀ f, findByRegex store m f = [] := fun f => findByRegex_eq_nil.2 (hnone f)
  have hne : findByPrice store (JSNumber.finite n) ≠ [] := by
    obtain ⟨l, hl, hp⟩ := hsome
    exact List.ne_nil_of_mem (mem_findByPrice.2 ⟨hl, hp⟩)
  refine ⟨findByPrice store (JSNumber.finite n), ?_, List.perm_insertionSort _ _,
    fun l => mem_findByPrice, findByPrice_sorted _ _⟩
  rw [hcas, if_neg (by simp [hnil]), if_neg (by simp [hnil]), if_neg (by simp [hnil]),
    if_neg (by simp [hnil]), if_pos ⟨by simp, hne⟩]
  rfl

/-- The call `parseInt` gives `NaN` exactly on the strings that do not begin,
after white space and an optional sign, with a decimal digit. -/
theorem parseInt_eq_nan_iff (s : Str) :
    parseInt s = JSNumber.nan ↔ beginsWithInteger s = false := by
  have hz : ∀ z : Str, (if z = [] then JSNumber.nan
      else
        match roundToDouble (digitsValue z) with
        | some v => JSNumber.finite (if (s.dropWhile isWhiteSpace).head? = some 0x2D then
            -(v : Int) else v)
        | none => if (s.dropWhile isWhiteSpace).head? = some 0x2D then JSNumber.negInf
            else JSNumber.posInf) = JSNumber.nan ↔ z = [] := by
    intro z
    by_cases h : z = []
    · simp [h]
    · simp only [h, if_false, iff_false]
      cases roundToDouble (digitsValue z) with
      | none => split_ifs <;> simp
      | some v => simp
  have htake : ∀ u : Str, u.takeWhile isDigit = [] ↔
      (match u with
        | [] => false
        | d :: _ => isDigit d) = false := by
    intro u
    cases u with
    | nil => simp
    | cons d ds =>
      by_cases hd : isDigit d = true
      · simp [List.takeWhile_cons, hd]
      · simp [List.takeWhile_cons, hd]
  unfold parseInt beginsWithInteger
  simp only []
  rw [hz]
  cases ht : s.dropWhile isWhiteSpace with
  | nil => simp
  | cons c cs =>
    by_cases hsign : c = 0x2D ∨ c = 0x2B
    · have h1 : (some c = some 0x2D ∨ some c = some 0x2B) := by
        rcases hsign with h | h
        · exact Or.inl (by rw [h])
        · exact Or.inr (by rw [h])
      simp only [List.head?_cons, h1, if_true, List.drop_succ_cons, List.drop_zero, hsign]
      exact htake cs
    · have h1 : ¬ (some c = some 0x2D ∨ some c = some 0x2B) := by
        rintro (h | h)
        · exact hsign (Or.inl (Option.some.inj h))
        · exact hsign (Or.inr (Option.some.inj h))
      simp only [List.head?_cons, h1, if_false, hsign]
      exact htake (c :: cs)

/-- A query that is not blank and whose normalized form the store rejects as a
regular expression ends `search` in an exception, with nothing flashed and
nothing rendered. -/
theorem search_raises_of_rejected (E : Platform) (store : Store) (q : Str)
    (hq : ∃ c ∈ q, isWhiteSpace c = false) (hm : E.regex (searchElement E q) = none) :
    search E store q =
      { store := store, flash := [], ending := Ending.raised Raised.queryError } := by
  unfold search
  simp only [if_neg (searchInput_nonblank hq), hm, raise]

/-- C6, amended: for a query that is not blank, whose normalized form the
store accepts as a regular expression and which, as that case-insensitive
regular expression, matches no title, category, country or location: when
`parseInt` reads no integer from the normalized form (the result is `NaN`),
`search` renders nothing, flashes the no-results error and redirects to the
list; when `search` renders a list, `parseInt` has read an integer from the
normalized form; and `parseInt` reads no integer exactly when the normalized
form does not begin, after white space and an optional sign, with a decimal
digit. -/
theorem search_not_parsed (E : Platform) (store : Store) (q : Str) (m : Str → Bool)
    (hq : ∃ c ∈ q, isWhiteSpace c = false) (hm : E.regex (searchElement E q) = some m)
    (hnone : ∀ f : Field, ∀ l ∈ store, f.test m l = false) :
    (parseInt (searchElement E q) = JSNumber.nan →
      search E store q =
        { store := store
          flash := [⟨FlashKind.error, js "No listings found based on your search!"⟩]
          ending := Ending.replied (Reply.redirect Path.listings) }) ∧
    ((∃ view success ls, (search E store q).ending =
        Ending.replied (Reply.render view success (Payload.allListings ls))) →
      parseInt (searchElement E q) ≠ JSNumber.nan) ∧
    (parseInt (searchElement E q) = JSNumber.nan ↔
      beginsWithInteger (searchElement E q) = false) := by
  have hcas := search_eq_cascade E store q m hq hm
  have hnil : ∀ f, findByRegex store m f = [] := fun f => findByRegex_eq_nil.2 (hnone f)
  rw [if_neg (by simp [hnil]), if_neg (by simp [hnil]), if_neg (by simp [hnil]),
    if_neg (by simp [hnil])] at hcas
  refine ⟨?_, ?_, parseInt_eq_nan_iff _⟩
  · intro hnan
    rw [hcas, if_neg (fun h => h.1 hnan)]
    rfl
  · rintro ⟨view, success, ls, hrender⟩ hnan
    rw [hcas, if_neg (fun h => h.1 hnan)] at hrender
    simp [flashRedirect] at hrender

/-- C2, amended: for a query that is not blank, when the store's
case-insensitive regular expression of the normalized query matches the title
of exactly one listing, `search` renders the list view with exactly that
listing. -/
theorem search_unique_title (E : Platform) (store : Store) (q : Str) (m : Str → Bool)
    (l : Listing) (hq : ∃ c ∈ q, isWhiteSpace c = false)
    (hm : E.regex (searchElement E q) = some m)
    (hone : store.filter (fun x => Field.title.test m x) = [l]) :
    search E store q =
      { store := store
        flash := []
        ending := Ending.replied
          (Reply.render (js "listings/index.ejs") (some (js "Listings searched by Title!"))
            (Payload.allListings [l])) } := by
  have hcas := search_eq_cascade E store q m hq hm
  have h : findByRegex store m Field.title = [l] := hone
  rw [hcas, if_pos (by simp [h]), h]
  rfl

/-! ## Normalisation of the query -/

theorem splitSpace_ne_nil : ∀ s : Str, splitSpace s ≠ []
  | [] => by simp [splitSpace]
  | c :: cs => by
    unfold splitSpace
    split_ifs
    · simp
    · split <;> simp

theorem splitSpace_cons_space (cs : Str) : splitSpace (0x20 :: cs) = [] :: splitSpace cs := by
  simp [splitSpace]

theorem splitSpace_cons_of_ne {c : Nat} (hc : c ≠ 0x20) {cs : Str} {h : Str} {t : List Str}
    (hs : splitSpace cs = h :: t) : splitSpace (c :: cs) = (c :: h) :: t := by
  simp [splitSpace, hc, hs]

theorem ne_space_of_not_whiteSpace {c : Nat} (hc : isWhiteSpace c = false) : c ≠ 0x20 := by
  intro h
  rw [h] at hc
  exact absurd hc (by decide)

/-- The pieces of the collapsed string against the pieces of the string:
after a character that is not white space, same first piece and same
non-empty pieces after it; in a run of white space, same non-empty pieces. -/
theorem splitSpace_collapseFrom (s : Str) :
    (∃ h t t1, splitSpace (collapseFrom false s) = h :: t ∧
      s.splitOnP isWhiteSpace = h :: t1 ∧
      t.filter (fun w => decide (w ≠ [])) = t1.filter (fun w => decide (w ≠ []))) ∧
    (splitSpace (collapseFrom true s)).filter (fun w => decide (w ≠ [])) =
      (s.splitOnP isWhiteSpace).filter (fun w => decide (w ≠ [])) := by
  induction s with
  | nil =>
    refine ⟨⟨[], [], [], ?_, ?_, rfl⟩, ?_⟩ <;> simp [collapseFrom, splitSpace, List.splitOnP_nil]
  | cons c cs ih =>
    obtain ⟨⟨h, t, t1, h1, h2, h3⟩, h4⟩ := ih
    by_cases hc : isWhiteSpace c = true
    · refine ⟨⟨[], splitSpace (collapseFrom true cs), cs.splitOnP isWhiteSpace, ?_, ?_, h4⟩, ?_⟩
      · simp [collapseFrom, hc, splitSpace_cons_space]
      · rw [List.splitOnP_cons, if_pos hc]
      · rw [List.splitOnP_cons, if_pos hc]
        simp only [collapseFrom, hc, if_true]
        rw [h4]
        simp
    · have hc1 : isWhiteSpace c = false := by simpa using hc
      have hne : c ≠ 0x20 := ne_space_of_not_whiteSpace hc1
      have hsplit : (c :: cs).splitOnP isWhiteSpace = (c :: h) :: t1 := by
        rw [List.splitOnP_cons, if_neg hc, h2, List.modifyHead_cons]
      have hcol : ∀ b, splitSpace (collapseFrom b (c :: cs)) = (c :: h) :: t := by
        intro b
        simp only [collapseFrom, hc1, Bool.false_eq_true, if_false]
        exact splitSpace_cons_of_ne hne h1
      refine ⟨⟨c :: h, t, t1, hcol false, hsplit, h3⟩, ?_⟩
      rw [hcol true, hsplit, List.filter_cons_of_pos (by simp), List.filter_cons_of_pos (by simp),
        h3]

theorem splitOnP_concat_of_pos {x : Nat} (hx : isWhiteSpace x = true) :
    ∀ s : Str, (s ++ [x]).splitOnP isWhiteSpace = s.splitOnP isWhiteSpace ++ [[]]
  | [] => by simp [List.splitOnP_cons, hx, List.splitOnP_nil]
  | c :: cs => by
    rw [List.cons_append, List.splitOnP_cons, List.splitOnP_cons, splitOnP_concat_of_pos hx cs]
    split_ifs
    · rfl
    · obtain ⟨h, t, ht⟩ := List.exists_cons_of_ne_nil (List.splitOnP_ne_nil isWhiteSpace cs)
      rw [ht]
      rfl

theorem wordsOf_dropWhile : ∀ q : Str, wordsOf (q.dropWhile isWhiteSpace) = wordsOf q
  | [] => rfl
  | c :: cs => by
    by_cases hc : isWhiteSpace c = true
    · rw [List.dropWhile_cons_of_pos hc, wordsOf_dropWhile cs]
      unfold wordsOf
      rw [List.splitOnP_cons, if_pos hc]
      simp
    · rw [List.dropWhile_cons_of_neg hc]

theorem wordsOf_rdropWhile (s : Str) : wordsOf (s.rdropWhile isWhiteSpace) = wordsOf s := by
  induction s using List.reverseRecOn with
  | nil => rfl
  | append_singleton l x ih =>
    by_cases hx : isWhiteSpace x = true
    · rw [List.rdropWhile_concat_pos _ _ _ hx, ih]
      unfold wordsOf
      rw [splitOnP_concat_of_pos hx]
      simp
    · rw [List.rdropWhile_concat_neg _ _ _ hx]

theorem wordsOf_trim (q : Str) : wordsOf (trim q) = wordsOf q := by
  have h : trim q = (q.dropWhile isWhiteSpace).rdropWhile isWhiteSpace := rfl
  rw [h, wordsOf_rdropWhile, wordsOf_dropWhile]

theorem splitSpace_pieces_ne_nil (u : Str) :
    u.getLast? ≠ some 0x20 → NoDoubleSpace u →
      (∀ w ∈ (splitSpace u).tail, w ≠ []) ∧
      (u ≠ [] → u.head? ≠ some 0x20 → ∀ w ∈ splitSpace u, w ≠ []) := by
  induction u with
  | nil =>
    intro _ _
    simp [splitSpace]
  | cons c cs ih =>
    intro hlast hchain
    have hchain2 : NoDoubleSpace cs := (List.chain'_cons'.1 hchain).2
    have hlast2 : cs.getLast? ≠ some 0x20 := by
      cases cs with
      | nil => simp
      | cons d ds => simpa [List.getLast?_cons_cons] using hlast
    obtain ⟨ih1, ih2⟩ := ih hlast2 hchain2
    by_cases hc : c = 0x20
    · subst hc
      have hne : cs ≠ [] := by
        rintro rfl
        simp at hlast
      have hhead : cs.head? ≠ some 0x20 := by
        intro h
        exact (List.chain'_cons'.1 hchain).1 0x20 (by simp [h]) ⟨rfl, rfl⟩
      rw [splitSpace_cons_space]
      refine ⟨?_, ?_⟩
      · simpa using ih2 hne hhead
      · intro _ h
        simp at h
    · obtain ⟨h, t, ht⟩ := List.exists_cons_of_ne_nil (splitSpace_ne_nil cs)
      rw [splitSpace_cons_of_ne hc ht]
      rw [ht] at ih1
      have ht2 : ∀ w ∈ t, w ≠ [] := by simpa using ih1
      refine ⟨by simpa using ht2, ?_⟩
      intro _ _ w hw
      rcases List.mem_cons.1 hw with rfl | hw
      · simp
      · exact ht2 w hw

theorem collapseFrom_noDoubleSpace (s : Str) :
    ∀ b, NoDoubleSpace (collapseFrom b s) ∧
      (b = true → (collapseFrom b s).head? ≠ some 0x20) := by
  induction s with
  | nil =>
    intro b
    simp [collapseFrom, NoDoubleSpace]
  | cons c cs ih =>
    intro b
    by_cases hc : isWhiteSpace c = true
    · cases b with
      | true =>
        simp only [collapseFrom, hc, if_true]
        exact ⟨(ih true).1, fun _ => (ih true).2 rfl⟩
      | false =>
        simp only [collapseFrom, hc, if_true, Bool.false_eq_true, if_false]
        refine ⟨?_, by simp⟩
        unfold NoDoubleSpace
        rw [List.chain'_cons']
        refine ⟨?_, (ih true).1⟩
        intro y hy h
        exact (ih true).2 rfl (by rw [Option.mem_def.1 hy, h.2])
    · have hc1 : isWhiteSpace c = false := by simpa using hc
      have hne : c ≠ 0x20 := ne_space_of_not_whiteSpace hc1
      simp only [collapseFrom, hc1, Bool.false_eq_true, if_false]
      refine ⟨?_, ?_⟩
      · unfold NoDoubleSpace
        rw [List.chain'_cons']
        exact ⟨fun y _ h => hne h.1, (ih false).1⟩
      · intro _
        simpa using hne

theorem collapseFrom_concat {x : Nat} (hx : isWhiteSpace x = false) :
    ∀ (r : Str) (b : Bool), collapseFrom b (r ++ [x]) = collapseFrom b r ++ [x]
  | [], b => by simp [collapseFrom, hx]
  | c :: cs, b => by
    rw [List.cons_append]
    unfold collapseFrom
    split_ifs <;> simp [collapseFrom_concat hx cs]

/-- A query with a character that is not white space is trimmed to a string
that ends with such a character. -/
theorem trim_last {q : Str} (hq : ∃ c ∈ q, isWhiteSpace c = false) :
    ∃ r x, trim q = r ++ [x] ∧ isWhiteSpace x = false := by
  obtain ⟨c, cs, htrim, _⟩ := trim_head hq
  have hne : (q.dropWhile isWhiteSpace).rdropWhile isWhiteSpace ≠ [] := by
    have h : trim q = (q.dropWhile isWhiteSpace).rdropWhile isWhiteSpace := rfl
    rw [← h, htrim]
    simp
  refine ⟨((q.dropWhile isWhiteSpace).rdropWhile isWhiteSpace).dropLast,
    ((q.dropWhile isWhiteSpace).rdropWhile isWhiteSpace).getLast hne, ?_, ?_⟩
  · exact (List.dropLast_append_getLast hne).symm
  · simpa using List.rdropWhile_last_not isWhiteSpace (q.dropWhile isWhiteSpace) hne

/-- The words `search` splits the query into are the maximal runs of the query
without white space. -/
theorem splitSpace_searchInput {q : Str} (hq : ∃ c ∈ q, isWhiteSpace c = false) :
    splitSpace (searchInput q) = wordsOf q := by
  obtain ⟨c, cs, hhead, hc⟩ := trim_head hq
  obtain ⟨r, x, hlast, hx⟩ := trim_last hq
  have hu : searchInput q = c :: collapseFrom false cs := by
    simp [searchInput, collapseSpaces, hhead, collapseFrom, hc]
  have hu2 : searchInput q = collapseFrom false r ++ [x] := by
    unfold searchInput collapseSpaces
    rw [hlast, collapseFrom_concat hx]
  have hpieces : ∀ w ∈ splitSpace (searchInput q), w ≠ [] := by
    refine (splitSpace_pieces_ne_nil (searchInput q) ?_ ?_).2 ?_ ?_
    · rw [hu2]
      simpa using ne_space_of_not_whiteSpace hx
    · exact (collapseFrom_noDoubleSpace (trim q) false).1
    · rw [hu]
      simp
    · rw [hu]
      simpa using ne_space_of_not_whiteSpace hc
  have hfilter : (splitSpace (searchInput q)).filter (fun w => decide (w ≠ [])) =
      splitSpace (searchInput q) := by
    rw [List.filter_eq_self]
    intro w hw
    simpa using hpieces w hw
  obtain ⟨⟨h, t, t1, h1, h2, h3⟩, _⟩ := splitSpace_collapseFrom (trim q)
  have h1b : splitSpace (searchInput q) = h :: t := h1
  rw [← wordsOf_trim, ← hfilter, h1b]
  unfold wordsOf
  rw [h2]
  have hh : h ≠ [] := hpieces h (by rw [h1b]; exact List.mem_cons_self _ _)
  rw [List.filter_cons_of_pos (by simpa using hh), List.filter_cons_of_pos (by simpa using hh), h3]

theorem mem_splitOnP_not_whiteSpace :
    ∀ (s : Str), ∀ w ∈ s.splitOnP isWhiteSpace, ∀ c ∈ w, isWhiteSpace c = false
  | [], w, hw, c, hc => by
    rw [List.splitOnP_nil] at hw
    simp at hw
    subst hw
    simp at hc
  | a :: s, w, hw, c, hc => by
    have ih := mem_splitOnP_not_whiteSpace s
    rw [List.splitOnP_cons] at hw
    split_ifs at hw with ha
    · rcases List.mem_cons.1 hw with rfl | hw
      · simp at hc
      · exact ih w hw c hc
    · obtain ⟨h, t, ht⟩ := List.exists_cons_of_ne_nil (List.splitOnP_ne_nil isWhiteSpace s)
      rw [ht, List.modifyHead_cons] at hw
      rcases List.mem_cons.1 hw with rfl | hw
      · rcases List.mem_cons.1 hc with rfl | hc
        · simpa using ha
        · exact ih h (by rw [ht]; exact List.mem_cons_self _ _) c hc
      · exact ih w (by rw [ht]; exact List.mem_cons_of_mem _ hw) c hc

theorem mem_wordsOf {q w : Str} (hw : w ∈ wordsOf q) :
    w ≠ [] ∧ ∀ c ∈ w, isWhiteSpace c = false := by
  unfold wordsOf at hw
  rw [List.mem_filter] at hw
  exact ⟨by simpa using hw.2, mem_splitOnP_not_whiteSpace q w hw.1⟩

theorem capitalize_eq_titleCase (E : Platform) {w : Str} (hw : w ≠ []) :
    capitalize E w = titleCase E w := by
  cases w with
  | nil => exact absurd rfl hw
  | cons c cs => simp [capitalize, titleCase]

theorem joinSpace_cons_cons (w w1 : Str) (r : List Str) :
    joinSpace (w :: w1 :: r) = w ++ 0x20 :: joinSpace (w1 :: r) := by
  simp [joinSpace, List.intercalate]

theorem chain_of_no_space : ∀ {w : Str}, (∀ c ∈ w, c ≠ 0x20) → NoDoubleSpace w
  | [], _ => List.chain'_nil
  | a :: w, h => by
    unfold NoDoubleSpace
    rw [List.chain'_cons']
    exact ⟨fun y _ hy => h a (List.mem_cons_self _ _) hy.1,
      chain_of_no_space (fun c hc => h c (List.mem_cons_of_mem _ hc))⟩

/-- Words without white space, none empty, joined by single spaces. -/
theorem joinSpace_tight :
    ∀ (ws : List Str), ws ≠ [] → (∀ w ∈ ws, w ≠ [] ∧ ∀ c ∈ w, isWhiteSpace c = false) →
      joinSpace ws ≠ [] ∧
      (∀ c, (joinSpace ws).head? = some c → isWhiteSpace c = false) ∧
      (∀ c, (joinSpace ws).getLast? = some c → isWhiteSpace c = false) ∧
      NoDoubleSpace (joinSpace ws)
  | [], h, _ => absurd rfl h
  | [w], _, hw => by
    obtain ⟨hne, hws⟩ := hw w (List.mem_cons_self _ _)
    rw [joinSpace_singleton]
    refine ⟨hne, ?_, ?_, chain_of_no_space (fun c hc => ne_space_of_not_whiteSpace (hws c hc))⟩
    · intro c hc
      exact hws c (List.mem_of_mem_head? hc)
    · intro c hc
      exact hws c (List.mem_of_mem_getLast? hc)
  | w :: w1 :: r, _, hw => by
    obtain ⟨hne, hws⟩ := hw w (List.mem_cons_self _ _)
    obtain ⟨ih1, ih2, ih3, ih4⟩ := joinSpace_tight (w1 :: r) (by simp)
      (fun x hx => hw x (List.mem_cons_of_mem _ hx))
    rw [joinSpace_cons_cons]
    obtain ⟨a, as, ha⟩ := List.exists_cons_of_ne_nil hne
    refine ⟨by simp [ha], ?_, ?_, ?_⟩
    · intro c hc
      rw [ha] at hc
      simp at hc
      subst hc
      exact hws a (by rw [ha]; exact List.mem_cons_self _ _)
    · intro c hc
      have h2 : (w ++ 0x20 :: joinSpace (w1 :: r)).getLast? = (joinSpace (w1 :: r)).getLast? := by
        obtain ⟨b, bs, hb⟩ := List.exists_cons_of_ne_nil ih1
        rw [hb, List.getLast?_append, List.getLast?_cons_cons]
        rw [List.getLast?_eq_getLast _ (List.cons_ne_nil b bs)]
        rfl
      rw [h2] at hc
      exact ih3 c hc
    · unfold NoDoubleSpace
      rw [List.chain'_append]
      refine ⟨chain_of_no_space (fun c hc => ne_space_of_not_whiteSpace (hws c hc)), ?_, ?_⟩
      · rw [List.chain'_cons']
        refine ⟨?_, ih4⟩
        intro y hy h
        have := ih2 y (Option.mem_def.1 hy)
        rw [h.2] at this
        exact absurd this (by decide)
      · intro x hx y _ h
        have := hws x (List.mem_of_mem_getLast? (Option.mem_def.1 hx))
        rw [h.1] at this
        exact absurd this (by decide)

/-- C8: for a query with a character that is not white space, the normalized
form is the maximal runs of the query without white space, in their order,
each with its first character in upper case and the others in lower case,
joined by one space; and when the case mappings keep words (no white space
out of none, no empty string out of a non-empty one), the normalized form is
not empty, neither begins nor ends with white space, and has no two adjacent
spaces. -/
theorem searchElement_normal_form (E : Platform) (q : Str)
    (hq : ∃ c ∈ q, isWhiteSpace c = false) :
    searchElement E q = joinSpace ((wordsOf q).map (titleCase E)) ∧
    (KeepsWords E →
      searchElement E q ≠ [] ∧
      (∀ c, (searchElement E q).head? = some c → isWhiteSpace c = false) ∧
      (∀ c, (searchElement E q).getLast? = some c → isWhiteSpace c = false) ∧
      ¬ ([0x20, 0x20] <:+: searchElement E q)) := by
  have heq : searchElement E q = joinSpace ((wordsOf q).map (titleCase E)) := by
    unfold searchElement
    rw [splitSpace_searchInput hq]
    congr 1
    apply List.map_congr_left
    intro w hw
    exact capitalize_eq_titleCase E (mem_wordsOf hw).1
  refine ⟨heq, ?_⟩
  intro hE
  have hwords : wordsOf q ≠ [] := by
    rw [← splitSpace_searchInput hq]
    exact splitSpace_ne_nil _
  have hall : ∀ w ∈ (wordsOf q).map (titleCase E), w ≠ [] ∧ ∀ c ∈ w, isWhiteSpace c = false := by
    intro w hw
    obtain ⟨v, hv, rfl⟩ := List.mem_map.1 hw
    obtain ⟨hne, hws⟩ := mem_wordsOf hv
    cases v with
    | nil => exact absurd rfl hne
    | cons a as =>
      have h1 := hE [a] (fun c hc => hws c (by
        rw [List.mem_singleton.1 hc]; exact List.mem_cons_self _ _))
      have h2 := hE as (fun c hc => hws c (List.mem_cons_of_mem _ hc))
      refine ⟨?_, ?_⟩
      · intro h
        have := List.append_eq_nil.1 h
        exact h1.2.2 (by simp) this.1
      · intro c hc
        rcases List.mem_append.1 hc with hc | hc
        · exact h1.1 c hc
        · exact h2.2.1 c hc
  obtain ⟨t1, t2, t3, t4⟩ := joinSpace_tight _ (by simpa using hwords) hall
  rw [heq]
  refine ⟨t1, t2, t3, ?_⟩
  rintro ⟨a, b, hab⟩
  rw [← hab] at t4
  unfold NoDoubleSpace at t4
  have h1 := (List.chain'_append.1 t4).1
  have h2 := (List.chain'_append.1 h1).2.1
  simp at h2

/-! ## The sample platform, and search evaluated on it -/

theorem sample_fixesNumerals : FixesNumerals sample := by
  intro s hs
  have hup : ∀ c ∈ s, (if 0x61 ≤ c ∧ c ≤ 0x7A then c - 0x20 else c) = c := by
    intro c hc
    rcases hs c hc with h | h
    · simp [isDigit] at h
      rw [if_neg (by omega)]
    · rw [if_neg (by omega)]
  have hlow : ∀ c ∈ s, (if 0x41 ≤ c ∧ c ≤ 0x5A then c + 0x20 else c) = c := by
    intro c hc
    rcases hs c hc with h | h
    · simp [isDigit] at h
      rw [if_neg (by omega)]
    · rw [if_neg (by omega)]
  constructor
  · show asciiUpper s = s
    unfold asciiUpper
    conv_rhs => rw [← List.map_id s]
    exact List.map_congr_left hup
  · show asciiLower s = s
    unfold asciiLower
    conv_rhs => rw [← List.map_id s]
    exact List.map_congr_left hlow

theorem sample_keepsWords : KeepsWords sample := by
  intro s hs
  refine ⟨?_, ?_, ?_⟩
  · intro c hc
    change c ∈ asciiUpper s at hc
    unfold asciiUpper at hc
    obtain ⟨d, hd, rfl⟩ := List.mem_map.1 hc
    have := hs d hd
    split_ifs with h
    · simp [isWhiteSpace]; omega
    · exact this
  · intro c hc
    change c ∈ asciiLower s at hc
    unfold asciiLower at hc
    obtain ⟨d, hd, rfl⟩ := List.mem_map.1 hc
    have := hs d hd
    split_ifs with h
    · simp [isWhiteSpace]; omega
    · exact this
  · intro hne h
    change asciiUpper s = [] at h
    unfold asciiUpper at h
    exact hne (List.map_eq_nil_iff.1 h)

/-- C1, as stated, fails, in two ways. The query `"+5"` occurs in the title
`Flat +5` of `oddStore`, so that the title is the first field with a partial
match, but the store rejects `+5` as a regular expression and `search` raises,
rendering nothing. The query `"sea.villa"`, normalized to `Sea.villa`, occurs,
case aside, in no title, category or country of `oddStore` and in the
location of listing 2 only, but as a regular expression it matches the title
`Sea villa`, and `search` renders listing 1 by title, not listing 2. -/
theorem search_regex_not_partial_match :
    (searchElement dotSample (js "+5") = js "+5" ∧
      oddStore.filter (fun l => Field.title.test (literalTest (js "+5")) l) =
        [sampleListing 3 "Flat +5" ["Rooms"] "India" "Pune" 500] ∧
      search dotSample oddStore (js "+5") =
        { store := oddStore, flash := [], ending := Ending.raised Raised.queryError }) ∧
    (searchElement dotSample (js "sea.villa") = js "Sea.villa" ∧
      oddStore.filter (fun l => Field.title.test (literalTest (js "Sea.villa")) l) = [] ∧
      oddStore.filter (fun l => Field.category.test (literalTest (js "Sea.villa")) l) = [] ∧
      oddStore.filter (fun l => Field.country.test (literalTest (js "Sea.villa")) l) = [] ∧
      oddStore.filter (fun l => Field.location.test (literalTest (js "Sea.villa")) l) =
        [sampleListing 2 "Hut" ["Rooms"] "India" "Sea.villa Road" 300] ∧
      search dotSample oddStore (js "sea.villa") =
        { store := oddStore
          flash := []
          ending := Ending.replied
            (Reply.render (js "listings/index.ejs") (some (js "Listings searched by Title!"))
              (Payload.allListings [sampleListing 1 "Sea villa" ["Beach"] "India" "Goa" 1200])) }) := by
  decide

theorem search_first_matching_field_witness :
    (∃ c ∈ js "rooms", isWhiteSpace c = false) ∧
    sample.regex (searchElement sample (js "rooms")) = some (literalTest (js "Rooms")) ∧
    (∃ l ∈ sampleStore, Field.category.test (literalTest (js "Rooms")) l = true) ∧
    (∀ g : Field, g.rank < Field.category.rank →
      ∀ l ∈ sampleStore, g.test (literalTest (js "Rooms")) l = false) ∧
    ∃ ls : List Listing,
      search sample sampleStore (js "rooms") =
        { store := sampleStore
          flash := []
          ending := Ending.replied
            (Reply.render (js "listings/index.ejs") (some Field.category.success)
              (Payload.allListings ls)) } ∧
      ls.Perm (sampleStore.filter (fun l => Field.category.test (literalTest (js "Rooms")) l)) ∧
      (∀ l, l ∈ ls ↔ l ∈ sampleStore ∧ Field.category.test (literalTest (js "Rooms")) l = true) ∧
    sample.regex (searchElement sample (js "villa")) = some (literalTest (js "Villa")) ∧
    Field.title.test (literalTest (js "Villa"))
      (sampleListing 1 "Sea villa" ["Beach"] "India" "Goa" 1200) = true ∧
    Field.category.test (literalTest (js "Villa"))
      (sampleListing 3 "Hut" ["Rooms", "Villa"] "India" "Manali" 10) = true ∧
    Field.title.test (literalTest (js "Villa"))
      (sampleListing 3 "Hut" ["Rooms", "Villa"] "India" "Manali" 10) = false ∧
    ∃ ls : List Listing,
      search sample sampleStore (js "villa") =
        { store := sampleStore
          flash := []
          ending := Ending.replied
            (Reply.render (js "listings/index.ejs") (some (js "Listings searched by Title!"))
              (Payload.allListings ls)) } ∧
      sampleListing 1 "Sea villa" ["Beach"] "India" "Goa" 1200 ∈ ls ∧
      sampleListing 3 "Hut" ["Rooms", "Villa"] "India" "Manali" 10 ∉ ls :=
  have hfirst : ∀ g : Field, g.rank < Field.category.rank →
      ∀ l ∈ sampleStore, g.test (literalTest (js "Rooms")) l = false := by
    intro g hg
    cases g
    · decide
    all_goals exact absurd hg (by decide)
  have hrooms :=
    (search_first_matching_field sample sampleStore (js "rooms") (literalTest (js "Rooms"))
      (by decide) rfl).1 Field.category (by decide) hfirst
  have hvilla :=
    (search_first_matching_field sample sampleStore (js "villa") (literalTest (js "Villa"))
      (by decide) rfl).2
      (sampleListing 1 "Sea villa" ["Beach"] "India" "Goa" 1200) (by decide)
      (sampleListing 3 "Hut" ["Rooms", "Villa"] "India" "Manali" 10) (by decide)
      (by decide) (by decide) (by decide)
  ⟨by decide, rfl, by decide, hfirst, hrooms.choose, hrooms.choose_spec.1,
    hrooms.choose_spec.2.1, hrooms.choose_spec.2.2, rfl, by decide, by decide, by decide, hvilla⟩

/-- C2, as stated, fails: the query `" villa"` occurs in the title of one
listing of `sampleStore` only, `Sea villa`, and `search` renders two listings,
that one and `Villa Rosa`. -/
theorem search_title_substring_renders_two :
    sampleStore.filter (fun l => l.title.any (occursIn (js " villa"))) =
      [sampleListing 1 "Sea villa" ["Beach"] "India" "Goa" 1200] ∧
    search sample sampleStore (js " villa") =
      { store := sampleStore
        flash := []
        ending := Ending.replied
          (Reply.render (js "listings/index.ejs") (some (js "Listings searched by Title!"))
            (Payload.allListings
              [sampleListing 1 "Sea villa" ["Beach"] "India" "Goa" 1200,
               sampleListing 2 "Villa Rosa" ["Rooms"] "Italy" "Rome" 300])) } := by
  decide

theorem search_unique_title_witness :
    (∃ c ∈ js "rosa", isWhiteSpace c = false) ∧
    sample.regex (searchElement sample (js "rosa")) = some (literalTest (js "Rosa")) ∧
    sampleStore.filter (fun x => Field.title.test (literalTest (js "Rosa")) x) =
      [sampleListing 2 "Villa Rosa" ["Rooms"] "Italy" "Rome" 300] ∧
    search sample sampleStore (js "rosa") =
      { store := sampleStore
        flash := []
        ending := Ending.replied
          (Reply.render (js "listings/index.ejs") (some (js "Listings searched by Title!"))
            (Payload.allListings [sampleListing 2 "Villa Rosa" ["Rooms"] "Italy" "Rome" 300])) } :=
  ⟨by decide, rfl, by decide,
   search_unique_title sample sampleStore (js "rosa") (literalTest (js "Rosa"))
     (sampleListing 2 "Villa Rosa" ["Rooms"] "Italy" "Rome" 300) (by decide) rfl (by decide)⟩

/-- C5, as stated, fails: for `n = 18014398509481987` the numeral matches no
field in `grandStore` and a listing has a price below `n`, but `parseInt`
rounds the numeral up to the double `18014398509481988`, and `search` renders
the listing of that price, which is above `n`. -/
theorem search_price_rounded_up :
    numeral 18014398509481987 = js "18014398509481987" ∧
    parseInt (js "18014398509481987") = JSNumber.finite 18014398509481988 ∧
    (∃ m, sample.regex (js "18014398509481987") = some m ∧
      findByRegex grandStore m Field.title = [] ∧ findByRegex grandStore m Field.category = [] ∧
      findByRegex grandStore m Field.country = [] ∧ findByRegex grandStore m Field.location = []) ∧
    (sampleListing 3 "Hut" ["Rooms", "Villa"] "India" "Manali" 10 ∈ grandStore ∧
      (10 : ℚ) ≤ ((18014398509481987 : Int) : ℚ)) ∧
    search sample grandStore (js "18014398509481987") =
      { store := grandStore
        flash := []
        ending := Ending.replied
          (Reply.render (js "listings/index.ejs")
            (some (js "Listings searched by price less than Rs 18014398509481987!"))
            (Payload.allListings
              [sampleListing 3 "Hut" ["Rooms", "Villa"] "India" "Manali" 10,
               sampleListing 2 "Villa Rosa" ["Rooms"] "Italy" "Rome" 300,
               sampleListing 1 "Sea villa" ["Beach"] "India" "Goa" 1200,
               sampleListing 4 "Palace" ["Castles"] "India" "Jaipur" 18014398509481988])) } ∧
    ¬ ((18014398509481988 : ℚ) ≤ ((18014398509481987 : Int) : ℚ)) := by
  refine ⟨by decide, by decide, ⟨literalTest (js "18014398509481987"), rfl, ?_, ?_, ?_, ?_⟩,
    by decide, by decide, by decide⟩ <;> decide

theorem search_price_fallback_witness :
    FixesNumerals sample ∧
    roundToDouble (500 : Int).natAbs = some (500 : Int).natAbs ∧
    sample.regex (numeral 500) = some (literalTest (js "500")) ∧
    (∀ f : Field, ∀ l ∈ sampleStore, f.test (literalTest (js "500")) l = false) ∧
    (∃ l ∈ sampleStore, ∃ x, l.price = some x ∧ x ≤ ((500 : Int) : ℚ)) ∧
    ∃ ls : List Listing,
      search sample sampleStore (numeral 500) =
        { store := sampleStore
          flash := []
          ending := Ending.replied
            (Reply.render (js "listings/index.ejs")
              (some (js "Listings searched by price less than Rs " ++ numeral 500 ++ js "!"))
              (Payload.allListings ls)) } ∧
      ls.Perm (sampleStore.filter (fun l => priceLte l.price (JSNumber.finite 500))) ∧
      (∀ l, l ∈ ls ↔ l ∈ sampleStore ∧ ∃ x, l.price = some x ∧ x ≤ ((500 : Int) : ℚ)) ∧
      ls.Pairwise (fun a b => ∀ x y, a.price = some x → b.price = some y → x ≤ y) :=
  have hnone : ∀ f : Field, ∀ l ∈ sampleStore, f.test (literalTest (js "500")) l = false := by
    intro f
    cases f <;> decide
  have hsome : ∃ l ∈ sampleStore, ∃ x, l.price = some x ∧ x ≤ ((500 : Int) : ℚ) :=
    ⟨sampleListing 3 "Hut" ["Rooms", "Villa"] "India" "Manali" 10, by decide, 10, rfl,
      by decide⟩
  ⟨sample_fixesNumerals, by decide, rfl, hnone, hsome,
   search_price_fallback sample sample_fixesNumerals sampleStore 500 (literalTest (js "500"))
     (by decide) rfl hnone hsome⟩

/-- C6, as stated, fails: the normalized form of `"12 Main"` is `"12 Main"`,
which is the numeral of no integer and matches no field in `sampleStore`, and
`search` renders the listing of price 10, since `parseInt` reads 12. -/
theorem search_digit_led_phrase_renders :
    searchElement sample (js "12 Main") = js "12 Main" ∧
    (∀ n : Int, numeral n ≠ js "12 Main") ∧
    parseInt (js "12 Main") = JSNumber.finite 12 ∧
    (∃ m, sample.regex (js "12 Main") = some m ∧
      findByRegex sampleStore m Field.title = [] ∧ findByRegex sampleStore m Field.category = [] ∧
      findByRegex sampleStore m Field.country = [] ∧
      findByRegex sampleStore m Field.location = []) ∧
    search sample sampleStore (js "12 Main") =
      { store := sampleStore
        flash := []
        ending := Ending.replied
          (Reply.render (js "listings/index.ejs")
            (some (js "Listings searched by price less than Rs 12 Main!"))
            (Payload.allListings [sampleListing 3 "Hut" ["Rooms", "Villa"] "India" "Manali" 10])) } := by
  have hnum : ∀ n : Int, numeral n ≠ js "12 Main" := by
    intro n h
    have := numeral_not_whiteSpace n 0x20 (by rw [h]; decide)
    exact absurd this (by decide)
  refine ⟨by decide, hnum, by decide, ⟨literalTest (js "12 Main"), rfl, ?_, ?_, ?_, ?_⟩,
    by decide⟩ <;> decide

theorem search_not_parsed_witness :
    (∃ c ∈ js "main 12", isWhiteSpace c = false) ∧
    sample.regex (searchElement sample (js "main 12")) = some (literalTest (js "Main 12")) ∧
    (∀ f : Field, ∀ l ∈ sampleStore, f.test (literalTest (js "Main 12")) l = false) ∧
    parseInt (searchElement sample (js "main 12")) = JSNumber.nan ∧
    beginsWithInteger (searchElement sample (js "main 12")) = false ∧
    search sample sampleStore (js "main 12") =
      { store := sampleStore
        flash := [⟨FlashKind.error, js "No listings found based on your search!"⟩]
        ending := Ending.replied (Reply.redirect Path.listings) } :=
  have hnone : ∀ f : Field, ∀ l ∈ sampleStore, f.test (literalTest (js "Main 12")) l = false := by
    intro f
    cases f <;> decide
  ⟨by decide, rfl, hnone, by decide, by decide,
   (search_not_parsed sample sampleStore (js "main 12") (literalTest (js "Main 12"))
     (by decide) rfl hnone).1 (by decide)⟩

theorem searchElement_normal_form_witness :
    (∃ c ∈ js "  sEA   vIEW \t x ", isWhiteSpace c = false) ∧ KeepsWords sample ∧
    searchElement sample (js "  sEA   vIEW \t x ") =
      joinSpace ((wordsOf (js "  sEA   vIEW \t x ")).map (titleCase sample)) ∧
    searchElement sample (js "  sEA   vIEW \t x ") ≠ [] ∧
    (∀ c, (searchElement sample (js "  sEA   vIEW \t x ")).head? = some c →
      isWhiteSpace c = false) ∧
    (∀ c, (searchElement sample (js "  sEA   vIEW \t x ")).getLast? = some c →
      isWhiteSpace c = false) ∧
    ¬ ([0x20, 0x20] <:+: searchElement sample (js "  sEA   vIEW \t x ")) :=
  ⟨by decide, sample_keepsWords,
   (searchElement_normal_form sample (js "  sEA   vIEW \t x ") (by decide)).1,
   (searchElement_normal_form sample (js "  sEA   vIEW \t x ") (by decide)).2 sample_keepsWords⟩

end WonderLust
